import Mathlib

/-!
Verification of the WaveFT adapter layer (`src/peft/tuners/waveft/layer.py`).

The development shallowly embeds the per-layer adapter state machine:
the data model (`AdapterCfg`, `WaveFTState`), index generation
(`update_layer`), the delta-weight pipeline (`get_delta_weight`, both the
direct scatter mode and the IDWT padding/scatter/split/reconstruct/crop
mode), and the merge/unmerge/forward state machine of `WaveFTLinear`.

Tensors are modelled by `Mat`: an explicit (rows, cols) shape, a total
entry function, and a dtype tag.  Scalars are a type parameter `α`; exact
arithmetic instantiates `α := ℚ`, while `FVal` adds a non-finite value to
model the NaN/Inf detection of safe merge.  External collaborators that
are not part of this file's source — `torch.randperm`, `torch.randn`, the
wavelet reconstruction kernel `waverec2d`, the `torch.isfinite` test and
the base layer's forward pass — are function parameters, constrained only
by the contracts the spec gives them.

Python exceptions are modelled by `Except (State × String)`: an error
carries the layer state as it stood when the exception was raised (Python
mutations made before a `raise` persist), together with the message.
-/

namespace WaveFT

/-- A scalar type with an explicit non-finite element, modelling the
IEEE values (`NaN`/`±Inf`) that `torch.isfinite` rejects.  Any operation
touching a non-finite value yields a non-finite value. -/
inductive FVal where
  | fin : ℚ → FVal
  | nonfin : FVal
deriving DecidableEq

instance : Zero FVal := ⟨.fin 0⟩

instance : Add FVal :=
  ⟨fun a b => match a, b with
    | .fin x, .fin y => .fin (x + y)
    | _, _ => .nonfin⟩

instance : Sub FVal :=
  ⟨fun a b => match a, b with
    | .fin x, .fin y => .fin (x - y)
    | _, _ => .nonfin⟩

instance : Mul FVal :=
  ⟨fun a b => match a, b with
    | .fin x, .fin y => .fin (x * y)
    | _, _ => .nonfin⟩

/-- `torch.isfinite` on one scalar: true exactly on finite values. -/
def FVal.isFinite : FVal → Bool
  | .fin _ => true
  | .nonfin => false

/-- A dense 2-D tensor: an explicit shape, a total entry function (only
entries with `i < rows`, `j < cols` are meaningful), and a numeric-dtype
tag (dtype codes are abstract naturals; casting a tensor changes only the
tag, values being exact in this model). -/
structure Mat (α : Type) where
  rows : ℕ
  cols : ℕ
  entry : ℕ → ℕ → α
  dtype : ℕ

variable {α : Type}

/-- `torch.zeros(r, c, dtype=d)`. -/
def Mat.zeros [Zero α] (r c d : ℕ) : Mat α :=
  ⟨r, c, fun _ _ => 0, d⟩

/-- Elementwise tensor addition (shapes agree in every use below). -/
def Mat.add [Add α] (a b : Mat α) : Mat α :=
  ⟨a.rows, a.cols, fun i j => a.entry i j + b.entry i j, a.dtype⟩

/-- Elementwise tensor subtraction. -/
def Mat.sub [Sub α] (a b : Mat α) : Mat α :=
  ⟨a.rows, a.cols, fun i j => a.entry i j - b.entry i j, a.dtype⟩

/-- Tensor-times-scalar, `m * s`. -/
def Mat.smul [Mul α] (m : Mat α) (s : α) : Mat α :=
  ⟨m.rows, m.cols, fun i j => m.entry i j * s, m.dtype⟩

/-- Write value `v` at position `(r, c)`. -/
def Mat.set (m : Mat α) (r c : ℕ) (v : α) : Mat α :=
  ⟨m.rows, m.cols, fun i j => if i = r ∧ j = c then v else m.entry i j, m.dtype⟩

/-- Indexed assignment `m[rows, cols] = vals` for a list of
(coordinate, value) pairs; on coordinate collisions the last write wins. -/
def Mat.scatter (m : Mat α) (pairs : List ((ℕ × ℕ) × α)) : Mat α :=
  pairs.foldl (fun acc p => acc.set p.1.1 p.1.2 p.2) m

/-- Python slice `m[r0 : r0+h, c0 : c0+w]` for non-negative starts:
the result is clamped to the tensor's bounds, exactly as slicing is. -/
def Mat.slice (m : Mat α) (r0 h c0 w : ℕ) : Mat α :=
  ⟨min (r0 + h) m.rows - min r0 m.rows,
   min (c0 + w) m.cols - min c0 m.cols,
   fun i j => m.entry (min r0 m.rows + i) (min c0 m.cols + j),
   m.dtype⟩

/-- `m.to(d)`: dtype cast.  Values are exact in this model, so only the
dtype tag changes. -/
def Mat.toDtype (m : Mat α) (d : ℕ) : Mat α :=
  ⟨m.rows, m.cols, m.entry, d⟩

/-- `torch.isfinite(m).all()` for a scalar finiteness test `isFin`. -/
def Mat.allFinite (isFin : α → Bool) (m : Mat α) : Bool :=
  (List.range m.rows).all fun i =>
    (List.range m.cols).all fun j => isFin (m.entry i j)

/-- `F.linear(x, w)`: `x · wᵀ`, accumulating over the shared inner
dimension `x.cols`; result shape `(x.rows, w.rows)`. -/
def Mat.flinear [Zero α] [Add α] [Mul α] (x w : Mat α) : Mat α :=
  ⟨x.rows, w.rows,
   fun i j => ((List.range x.cols).map fun k => x.entry i k * w.entry j k).sum,
   x.dtype⟩

/-- Entrywise zero on the meaningful (in-bounds) part of a tensor. -/
def Mat.IsZero [Zero α] (m : Mat α) : Prop :=
  ∀ i j, i < m.rows → j < m.cols → m.entry i j = 0

/-- `WaveFTLayer.WAVELET_REDUCTIONS`: the static reduction table, in
source order. -/
def WAVELET_REDUCTIONS : List (String × (ℕ × ℕ)) :=
  [("db1", (0, 0)), ("db2", (2, 2)), ("db3", (4, 4)), ("db4", (6, 6)),
   ("db5", (8, 8)), ("db6", (10, 10)), ("db7", (12, 12)), ("db8", (14, 14)),
   ("db9", (16, 16)), ("db10", (18, 18)), ("db11", (20, 20)), ("db12", (22, 22)),
   ("db13", (24, 24)), ("db14", (26, 26)), ("db15", (28, 28)), ("db16", (30, 30)),
   ("db17", (32, 32)), ("db18", (34, 34)), ("db19", (36, 36)), ("db20", (38, 38)),
   ("db21", (40, 40)), ("db22", (42, 42)), ("db23", (44, 44)), ("db24", (46, 46)),
   ("db25", (48, 48)), ("db26", (50, 50)), ("db27", (52, 52)), ("db28", (54, 54)),
   ("db29", (56, 56)), ("db30", (58, 58)), ("db31", (60, 60)), ("db32", (62, 62)),
   ("db33", (64, 64)), ("db34", (66, 66)), ("db35", (68, 68)), ("db36", (70, 70)),
   ("db37", (72, 72)), ("db38", (74, 74)), ("sym2", (2, 2)), ("sym3", (4, 4)),
   ("sym4", (6, 6)), ("sym5", (8, 8)), ("sym6", (10, 10)), ("sym7", (12, 12)),
   ("sym8", (14, 14)), ("sym9", (16, 16)), ("sym10", (18, 18)), ("sym11", (20, 20)),
   ("sym12", (22, 22)), ("sym13", (24, 24)), ("sym14", (26, 26)), ("sym15", (28, 28)),
   ("sym16", (30, 30)), ("sym17", (32, 32)), ("sym18", (34, 34)), ("sym19", (36, 36)),
   ("sym20", (38, 38)), ("coif1", (4, 4)), ("coif2", (10, 10)), ("coif3", (16, 16)),
   ("coif4", (22, 22)), ("coif5", (28, 28)), ("coif6", (34, 34)), ("coif7", (40, 40)),
   ("coif8", (46, 46)), ("coif9", (52, 52)), ("coif10", (58, 58)), ("coif11", (64, 64)),
   ("coif12", (70, 70)), ("coif13", (76, 76)), ("coif14", (82, 82)), ("coif15", (88, 88)),
   ("coif16", (94, 94)), ("coif17", (100, 100))]

/-- The per-adapter configuration created by `update_layer`: the layer
stores these fields in sibling dictionaries keyed by adapter name
(`waveft_n_frequency`, `waveft_scaling`, `waveft_random_loc_seed`,
`waveft_wavelet_family`, `waveft_spectrum`, `indices`), all written
together by `update_layer`; the model groups them in one record per
name. -/
structure AdapterCfg (α : Type) where
  n_frequency : ℕ
  scaling : α
  random_loc_seed : ℕ
  wavelet_family : String
  spectrum : List α
  spectrumDtype : ℕ
  indices : List (ℕ × ℕ)

/-- The state of one `WaveFTLinear` layer: the frozen dims, the base
layer's weight tensor (`base_layer.weight.data`), the adapter config map,
the active-adapter list, the merged-adapter stack (top at the end, as
Python `list.append`/`list.pop`), the `disable_adapters` flag, and the
`use_idwt` mode carried in `kwargs`. -/
structure WaveFTState (α : Type) where
  out_features : ℕ
  in_features : ℕ
  baseWeight : Mat α
  adapters : List (String × AdapterCfg α)
  active_adapters : List String
  merged_adapters : List String
  disable_adapters : Bool
  use_idwt : Bool

/-- Python dict assignment `d[k] = v` on an association list: overwrite
the binding if `k` is present, otherwise append it. -/
def updateAssoc {β : Type} (l : List (String × β)) (k : String) (v : β) :
    List (String × β) :=
  if l.any fun p => p.1 = k then
    l.map fun p => if p.1 = k then (k, v) else p
  else l ++ [(k, v)]

/-- `self.merged`: derived flag, true iff the merged stack is non-empty. -/
def WaveFTState.merged (st : WaveFTState α) : Bool :=
  !st.merged_adapters.isEmpty

/-- The error message of `update_layer` for a non-positive `n_frequency`. -/
def nFreqPositiveMsg (n : ℤ) : String :=
  "`n_frequency` should be a positive integer value but the value passed is "
    ++ toString n

/-- The error message of `update_layer` for `n_frequency` above the grid
size. -/
def nFreqTooLargeMsg (n : ℤ) (prod : ℕ) : String :=
  "`n_frequency` should be less than or equal to the product of the input "
    ++ "and output dimensions but the value passed is " ++ toString n
    ++ " and the product is " ++ toString prod

/-- The error message of `update_layer` for an unrecognized wavelet
family; it lists the supported families. -/
def unsupportedFamilyMsg (f : String) : String :=
  "Unsupported wavelet family: " ++ f ++ ". Supported wavelet families: "
    ++ toString (WAVELET_REDUCTIONS.map Prod.fst)

/-- `WaveFTLayer.update_layer`.  `randperm seed n` models
`torch.randperm(n, generator=Generator().manual_seed(seed))` — the
external seed-deterministic permutation; `randnInit n` models the
`torch.randn(n) * 0.01` initial spectrum of the non-zero-init branch.
Validation happens before any state is written, so an error carries the
input state unchanged.  The trailing
`_move_adapter_to_device_of_base_layer` / `set_adapter(active_adapters)`
calls move storage and re-set the already-active adapters; they do not
change the modelled state. -/
def update_layer [Zero α] (randperm : ℕ → ℕ → List ℕ) (randnInit : ℕ → List α)
    (st : WaveFTState α) (adapter_name : String) (n_frequency : ℤ) (scaling : α)
    (init_weights : Bool) (random_loc_seed : ℕ) (wavelet_family : String) :
    Except (WaveFTState α × String) (WaveFTState α) :=
  if n_frequency ≤ 0 then
    .error (st, nFreqPositiveMsg n_frequency)
  else if (st.in_features * st.out_features : ℤ) < n_frequency then
    .error (st, nFreqTooLargeMsg n_frequency (st.in_features * st.out_features))
  else if (WAVELET_REDUCTIONS.lookup wavelet_family).isNone then
    .error (st, unsupportedFamilyMsg wavelet_family)
  else
    let n := n_frequency.toNat
    let perm := randperm random_loc_seed (st.out_features * st.in_features)
    let linear_indices := perm.take n
    let indices := linear_indices.map fun v =>
      (v / st.in_features, v % st.in_features)
    let spectrum : List α :=
      if init_weights then List.replicate n 0 else randnInit n
    let cfg : AdapterCfg α :=
      { n_frequency := n, scaling := scaling, random_loc_seed := random_loc_seed,
        wavelet_family := wavelet_family, spectrum := spectrum,
        spectrumDtype := 0, indices := indices }
    .ok { st with adapters := updateAssoc st.adapters adapter_name cfg }

/-- The padded dimension of the IDWT path: add the family's reduction,
then bump to the next even number if odd. -/
def paddedDim (d reduction : ℕ) : ℕ :=
  let p := d + reduction
  if p % 2 ≠ 0 then p + 1 else p

/-- The centering offset of the IDWT path: `(padded - original) // 2`. -/
def centerOffset (padded original : ℕ) : ℕ :=
  (padded - original) / 2

/-- The index/value pairs that survive the defensive bounds filter of the
IDWT path: indices shifted by the centering offsets, zipped with the
spectrum, keeping those strictly inside the padded grid. -/
def validPairs (cfg : AdapterCfg α) (row_offset col_offset pOut pIn : ℕ) :
    List ((ℕ × ℕ) × α) :=
  (((cfg.indices.map fun rc => (rc.1 + row_offset, rc.2 + col_offset)).zip
      cfg.spectrum).filter
    fun p => decide (p.1.1 < pOut) && decide (p.1.2 < pIn))

/-- The padded dense spectrum matrix of the IDWT path: zeros of the
padded shape with the surviving (shifted index, value) pairs scattered
in. -/
def denseSpectrum [Zero α] (cfg : AdapterCfg α)
    (row_offset col_offset pOut pIn : ℕ) : Mat α :=
  (Mat.zeros pOut pIn cfg.spectrumDtype).scatter
    (validPairs cfg row_offset col_offset pOut pIn)

/-- The IDWT branch of `get_delta_weight` up to (and including) the
`waverec2d` call and the scaling multiply — before the final crop-to-size
step.  `waverec2d cA cH cV cD family` is the external reconstruction
kernel. -/
def idwtPreCrop [Zero α] [Mul α]
    (waverec2d : Mat α → Mat α → Mat α → Mat α → String → Mat α)
    (st : WaveFTState α) (cfg : AdapterCfg α) (rr rc : ℕ) : Mat α :=
  let pOut := paddedDim st.out_features rr
  let pIn := paddedDim st.in_features rc
  let row_offset := centerOffset pOut st.out_features
  let col_offset := centerOffset pIn st.in_features
  let dense_spectrum := denseSpectrum cfg row_offset col_offset pOut pIn
  let H2 := pOut / 2
  let W2 := pIn / 2
  let cA := dense_spectrum.slice 0 H2 0 W2
  let cH := dense_spectrum.slice 0 H2 W2 (pIn - W2)
  let cV := dense_spectrum.slice H2 (pOut - H2) 0 W2
  let cD := dense_spectrum.slice H2 (pOut - H2) W2 (pIn - W2)
  (waverec2d cA cH cV cD cfg.wavelet_family).smul cfg.scaling

/-- `WaveFTLayer.get_delta_weight`.  `none` models the `KeyError` a
missing dictionary key would raise (the adapter itself, or its wavelet
family in the reduction table).  The final crop is taken only when the
reconstructed shape differs from the target; its slice start
`(shape - target) // 2` coincides with the Python expression whenever the
reconstruction is at least target-sized, which the kernel contract
guarantees. -/
def get_delta_weight [Zero α] [Mul α]
    (waverec2d : Mat α → Mat α → Mat α → Mat α → String → Mat α)
    (st : WaveFTState α) (adapter : String) : Option (Mat α) :=
  match st.adapters.lookup adapter with
  | none => none
  | some cfg =>
    if st.use_idwt then
      match WAVELET_REDUCTIONS.lookup cfg.wavelet_family with
      | none => none
      | some (rr, rc) =>
        let delta_weight := idwtPreCrop waverec2d st cfg rr rc
        if delta_weight.rows ≠ st.out_features ∨
            delta_weight.cols ≠ st.in_features then
          let start_row := (delta_weight.rows - st.out_features) / 2
          let start_col := (delta_weight.cols - st.in_features) / 2
          some (delta_weight.slice start_row st.out_features
                  start_col st.in_features)
        else
          some delta_weight
    else
      let dense_spectrum :=
        (Mat.zeros st.out_features st.in_features cfg.spectrumDtype).scatter
          (cfg.indices.zip cfg.spectrum)
      some (dense_spectrum.smul cfg.scaling)

/-- Modelled from the spec: the adapter-resolution collaborator
`check_adapters_to_merge` (from `peft.tuners.tuners_utils`, outside this
file) — given a requested list of adapter names, or none meaning all
active adapters, it returns the subset that still needs merging,
excluding already-merged names; empty when nothing qualifies. -/
def check_adapters_to_merge (st : WaveFTState α)
    (adapter_names : Option (List String)) : List String :=
  (adapter_names.getD st.active_adapters).filter
    fun n => decide (n ∉ st.merged_adapters)

/-- The message of the safe-merge NaN check, naming the offending
adapter. -/
def mergeNaNMsg (adapter : String) : String :=
  "NaNs detected in the merged weights. The adapter " ++ adapter
    ++ " seems to be broken"

/-- One iteration of the merge loop for `active_adapter`: skip names not
in the config map; with `safe_merge`, add the delta on a copy, raise
(leaving the state as it stood) if the result has a non-finite entry, and
commit otherwise; without it, add in place.  A committed adapter is
appended to the merged stack. -/
def mergeOne [Zero α] [Add α] [Mul α]
    (waverec2d : Mat α → Mat α → Mat α → Mat α → String → Mat α)
    (isFin : α → Bool) (safe_merge : Bool) (st : WaveFTState α)
    (active_adapter : String) :
    Except (WaveFTState α × String) (WaveFTState α) :=
  if (st.adapters.lookup active_adapter).isSome then
    match get_delta_weight waverec2d st active_adapter with
    | none => .error (st, "KeyError")
    | some delta =>
      if safe_merge then
        let orig_weights := st.baseWeight.add delta
        if ¬ orig_weights.allFinite isFin then
          .error (st, mergeNaNMsg active_adapter)
        else
          .ok { st with baseWeight := orig_weights,
                        merged_adapters := st.merged_adapters ++ [active_adapter] }
      else
        .ok { st with baseWeight := st.baseWeight.add delta,
                      merged_adapters := st.merged_adapters ++ [active_adapter] }
  else
    .ok st

/-- The merge loop over the resolved adapter names, in resolution
order. -/
def mergeLoop [Zero α] [Add α] [Mul α]
    (waverec2d : Mat α → Mat α → Mat α → Mat α → String → Mat α)
    (isFin : α → Bool) (safe_merge : Bool) :
    WaveFTState α → List String → Except (WaveFTState α × String) (WaveFTState α)
  | st, [] => .ok st
  | st, a :: rest =>
    match mergeOne waverec2d isFin safe_merge st a with
    | .error e => .error e
    | .ok st' => mergeLoop waverec2d isFin safe_merge st' rest

/-- `WaveFTLinear.merge`: resolve the target list via
`check_adapters_to_merge` (an empty resolution returns immediately), then
run the merge loop. -/
def merge [Zero α] [Add α] [Mul α]
    (waverec2d : Mat α → Mat α → Mat α → Mat α → String → Mat α)
    (isFin : α → Bool) (st : WaveFTState α) (safe_merge : Bool)
    (adapter_names : Option (List String)) :
    Except (WaveFTState α × String) (WaveFTState α) :=
  mergeLoop waverec2d isFin safe_merge st (check_adapters_to_merge st adapter_names)

/-- The unmerge while-loop.  `stack` is the merged stack top-first (the
reverse of `merged_adapters`); each turn pops the top (so the state's
stack is the remaining names), then subtracts the popped adapter's delta
when it is a config-map key. -/
def unmergeLoop [Zero α] [Sub α] [Mul α]
    (waverec2d : Mat α → Mat α → Mat α → Mat α → String → Mat α) :
    WaveFTState α → List String → Except (WaveFTState α × String) (WaveFTState α)
  | st, [] => .ok st
  | st, a :: rest =>
    let st1 := { st with merged_adapters := rest.reverse }
    if (st1.adapters.lookup a).isSome then
      match get_delta_weight waverec2d st1 a with
      | none => .error (st1, "KeyError")
      | some delta =>
        unmergeLoop waverec2d
          { st1 with baseWeight := st1.baseWeight.sub delta } rest
    else
      unmergeLoop waverec2d st1 rest

/-- `WaveFTLinear.unmerge`: with an empty merged stack this is a benign
no-op (the source emits the warning "Already unmerged. Nothing to do.");
otherwise pop every merged adapter in LIFO order, subtracting its
delta. -/
def unmerge [Zero α] [Sub α] [Mul α]
    (waverec2d : Mat α → Mat α → Mat α → Mat α → String → Mat α)
    (st : WaveFTState α) : Except (WaveFTState α × String) (WaveFTState α) :=
  if st.merged_adapters.isEmpty then
    .ok st
  else
    unmergeLoop waverec2d st st.merged_adapters.reverse

/-- The adapter-accumulation loop of `forward`'s third branch: for each
active adapter, skip it if absent from the config map, else cast the
running input to the delta's dtype and add `F.linear(x, delta_w)` to the
running result.  The input rebinding (`x = x.to(delta_w.dtype)`) is kept:
the cast survives into later iterations exactly as in the source. -/
def forwardLoop [Zero α] [Add α] [Mul α]
    (waverec2d : Mat α → Mat α → Mat α → Mat α → String → Mat α)
    (st : WaveFTState α) :
    List String → Mat α → Mat α → Except (WaveFTState α × String) (Mat α × Mat α)
  | [], x, result => .ok (x, result)
  | a :: rest, x, result =>
    if (st.adapters.lookup a).isSome then
      match get_delta_weight waverec2d st a with
      | none => .error (st, "KeyError")
      | some delta_w =>
        let x' := x.toDtype delta_w.dtype
        forwardLoop waverec2d st rest x' (result.add (x'.flinear delta_w))
    else
      forwardLoop waverec2d st rest x result

/-- `WaveFTLinear.forward`.  `baseF` is the base layer's forward pass
(`self.base_layer(x)`).  Three-state dispatch: disabled (unmerging first
when merged), merged, or live-adapter accumulation; the result is cast
back to the input's original dtype in every branch. -/
def forward [Zero α] [Add α] [Sub α] [Mul α]
    (waverec2d : Mat α → Mat α → Mat α → Mat α → String → Mat α)
    (baseF : Mat α → Mat α) (st : WaveFTState α) (x : Mat α) :
    Except (WaveFTState α × String) (WaveFTState α × Mat α) :=
  let previous_dtype := x.dtype
  if st.disable_adapters then
    if st.merged then
      match unmerge waverec2d st with
      | .error e => .error e
      | .ok st' => .ok (st', (baseF x).toDtype previous_dtype)
    else
      .ok (st, (baseF x).toDtype previous_dtype)
  else if st.merged then
    .ok (st, (baseF x).toDtype previous_dtype)
  else
    match forwardLoop waverec2d st st.active_adapters x (baseF x) with
    | .error e => .error e
    | .ok (_, result) => .ok (st, result.toDtype previous_dtype)

/-- The fields `get_delta_weight` reads: two states agreeing on them
produce identical deltas (the base weight and the merged stack play no
role in delta computation). -/
def SameCore (s st0 : WaveFTState α) : Prop :=
  s.adapters = st0.adapters ∧ s.use_idwt = st0.use_idwt ∧
  s.out_features = st0.out_features ∧ s.in_features = st0.in_features

/-- The delta weight as a total function (the default is never reached
under the well-formedness hypotheses used below). -/
def deltaOf [Zero α] [Mul α]
    (waverec2d : Mat α → Mat α → Mat α → Mat α → String → Mat α)
    (st : WaveFTState α) (nm : String) : Mat α :=
  (get_delta_weight waverec2d st nm).getD (Mat.zeros 0 0 0)

/-- Well-formedness: every configured adapter names a registered wavelet
family (guaranteed by `update_layer` validation). -/
def FamiliesOK (st : WaveFTState α) : Prop :=
  ∀ nm cfg, st.adapters.lookup nm = some cfg →
    (WAVELET_REDUCTIONS.lookup cfg.wavelet_family).isSome = true

/-! ### Concrete instances used by the witness theorems -/

/-- A trivial reconstruction kernel (returns the approximation band);
usable where no kernel contract is assumed. -/
def wIdent : Mat ℚ → Mat ℚ → Mat ℚ → Mat ℚ → String → Mat ℚ :=
  fun a _ _ _ _ => a

/-- A reconstruction kernel honouring the shape and zero contracts: an
all-zero matrix of exactly double the sub-band size. -/
def wZero : Mat ℚ → Mat ℚ → Mat ℚ → Mat ℚ → String → Mat ℚ :=
  fun a _ _ _ _ => Mat.zeros (2 * a.rows) (2 * a.cols) a.dtype

/-- A concrete 2×3 base weight. -/
def baseW : Mat ℚ :=
  ⟨2, 3, (fun i j => (i : ℚ) + 2 * j), 0⟩

/-- A concrete direct-mode adapter configuration with two
coefficients. -/
def cfgEx : AdapterCfg ℚ :=
  { n_frequency := 2, scaling := 2, random_loc_seed := 7,
    wavelet_family := "db1", spectrum := [5, 7], spectrumDtype := 0,
    indices := [(0, 1), (1, 2)] }

/-- A concrete direct-mode layer state holding `cfgEx` under the name
"a". -/
def stEx : WaveFTState ℚ :=
  { out_features := 2, in_features := 3, baseWeight := baseW,
    adapters := [("a", cfgEx)], active_adapters := ["a"],
    merged_adapters := [], disable_adapters := false, use_idwt := false }

/-- The concrete layer in IDWT mode. -/
def stExI : WaveFTState ℚ :=
  { stEx with use_idwt := true }

/-- A configuration whose single spectrum value is non-finite (models an
adapter whose training produced a NaN). -/
def cfgNaN : AdapterCfg FVal :=
  { n_frequency := 1, scaling := FVal.fin 1, random_loc_seed := 0,
    wavelet_family := "db1", spectrum := [FVal.nonfin], spectrumDtype := 0,
    indices := [(0, 0)] }

/-- A 1×1 direct-mode layer holding `cfgNaN`, with a finite base
weight. -/
def stNaN : WaveFTState FVal :=
  { out_features := 1, in_features := 1,
    baseWeight := ⟨1, 1, (fun _ _ => FVal.fin 1), 0⟩,
    adapters := [("a", cfgNaN)], active_adapters := ["a"],
    merged_adapters := [], disable_adapters := false, use_idwt := false }

/-- A trivial reconstruction kernel over `FVal`. -/
def wNaN : Mat FVal → Mat FVal → Mat FVal → Mat FVal → String → Mat FVal :=
  fun a _ _ _ _ => a

/-! ### Helper lemmas on tensors and the padding arithmetic -/

theorem allFinite_of_isFin_true (isFin : α → Bool) (h : ∀ v, isFin v = true)
    (m : Mat α) : m.allFinite isFin = true := by
  simp [Mat.allFinite, h]

theorem Mat.add_sub_cancel (a b : Mat ℚ) : (a.add b).sub b = a := by
  cases a; cases b
  simp only [Mat.add, Mat.sub, Mat.mk.injEq, true_and, and_true]
  funext i j
  ring

theorem Mat.scatter_rows (l : List ((ℕ × ℕ) × α)) (m : Mat α) :
    (m.scatter l).rows = m.rows := by
  induction l generalizing m with
  | nil => rfl
  | cons p t ih => simpa [Mat.scatter, Mat.set] using ih (m.set p.1.1 p.1.2 p.2)

theorem Mat.scatter_cols (l : List ((ℕ × ℕ) × α)) (m : Mat α) :
    (m.scatter l).cols = m.cols := by
  induction l generalizing m with
  | nil => rfl
  | cons p t ih => simpa [Mat.scatter, Mat.set] using ih (m.set p.1.1 p.1.2 p.2)

theorem Mat.scatter_dtype (l : List ((ℕ × ℕ) × α)) (m : Mat α) :
    (m.scatter l).dtype = m.dtype := by
  induction l generalizing m with
  | nil => rfl
  | cons p t ih => simpa [Mat.scatter, Mat.set] using ih (m.set p.1.1 p.1.2 p.2)

theorem Mat.scatter_entry_of_not_mem (l : List ((ℕ × ℕ) × α)) (m : Mat α)
    (r c : ℕ) (h : ∀ pr ∈ l, pr.1 ≠ (r, c)) :
    (m.scatter l).entry r c = m.entry r c := by
  induction l generalizing m with
  | nil => rfl
  | cons p t ih =>
    have hp : p.1 ≠ (r, c) := h p (List.mem_cons_self p t)
    have ht : ∀ pr ∈ t, pr.1 ≠ (r, c) := fun pr hm => h pr (List.mem_cons_of_mem p hm)
    have := ih (m.set p.1.1 p.1.2 p.2) ht
    rw [Mat.scatter] at *
    simp only [List.foldl_cons] at *
    rw [this, Mat.set]
    simp only
    rw [if_neg]
    intro ⟨h1, h2⟩
    exact hp (by cases p with | mk q v => cases q with | mk a b => simp_all)

theorem Mat.scatter_entry_of_mem (l : List ((ℕ × ℕ) × α)) (r c : ℕ) (v : α) :
    ∀ m : Mat α, (l.map Prod.fst).Nodup → ((r, c), v) ∈ l →
    (m.scatter l).entry r c = v := by
  induction l with
  | nil => intro m _ hm; cases hm
  | cons p t ih =>
    intro m hnd hm
    rw [List.map_cons, List.nodup_cons] at hnd
    rcases List.mem_cons.mp hm with h | h
    · subst h
      have hne : ∀ pr ∈ t, pr.1 ≠ (r, c) := by
        intro pr hpr heq
        exact hnd.1 (by simpa [heq] using List.mem_map_of_mem Prod.fst hpr)
      rw [Mat.scatter, List.foldl_cons, ← Mat.scatter]
      rw [Mat.scatter_entry_of_not_mem t _ r c hne, Mat.set]
      simp
    · exact ih (m.set p.1.1 p.1.2 p.2) hnd.2 h

theorem Mat.scatter_entry_zero [Zero α] (l : List ((ℕ × ℕ) × α)) :
    ∀ m : Mat α, (∀ pr ∈ l, pr.2 = 0) → (∀ i j, m.entry i j = 0) →
    ∀ i j, (m.scatter l).entry i j = 0 := by
  induction l with
  | nil => intro m _ hm; exact hm
  | cons p t ih =>
    intro m hl hm i j
    rw [Mat.scatter, List.foldl_cons, ← Mat.scatter]
    refine ih (m.set p.1.1 p.1.2 p.2) (fun pr h => hl pr (List.mem_cons_of_mem p h)) ?_ i j
    intro i' j'
    rw [Mat.set]
    simp only
    split
    · exact hl p (List.mem_cons_self p t)
    · exact hm i' j'

theorem Mat.slice_rows_of_le (m : Mat α) (r0 h c0 w : ℕ)
    (hle : r0 + h ≤ m.rows) : (m.slice r0 h c0 w).rows = h := by
  simp only [Mat.slice]
  omega

theorem Mat.slice_cols_of_le (m : Mat α) (r0 h c0 w : ℕ)
    (hle : c0 + w ≤ m.cols) : (m.slice r0 h c0 w).cols = w := by
  simp only [Mat.slice]
  omega

theorem Mat.slice_isZero [Zero α] (m : Mat α) (r0 h c0 w : ℕ)
    (hz : m.IsZero) : (m.slice r0 h c0 w).IsZero := by
  intro i j hi hj
  simp only [Mat.slice] at hi hj ⊢
  exact hz _ _ (by omega) (by omega)

theorem Mat.smul_isZero (m : Mat ℚ) (s : ℚ) (hz : m.IsZero) :
    (m.smul s).IsZero := by
  intro i j hi hj
  simp only [Mat.smul] at hi hj ⊢
  rw [hz i j hi hj, zero_mul]

theorem paddedDim_even (d r : ℕ) : paddedDim d r % 2 = 0 := by
  simp only [paddedDim]
  split <;> omega

theorem le_paddedDim (d r : ℕ) : d + r ≤ paddedDim d r := by
  simp only [paddedDim]
  split <;> omega

theorem self_le_paddedDim (d r : ℕ) : d ≤ paddedDim d r := by
  have := le_paddedDim d r
  omega

theorem two_mul_half_paddedDim (d r : ℕ) :
    2 * (paddedDim d r / 2) = paddedDim d r := by
  have := paddedDim_even d r
  omega

theorem centerOffset_add_lt (p d r : ℕ) (hr : r < d) (hd : d ≤ p) :
    r + centerOffset p d < p := by
  unfold centerOffset
  have : (p - d) / 2 ≤ p - d := Nat.div_le_self _ _
  omega

theorem lookup_map_overwrite {β : Type} (k : String) (v : β) :
    ∀ l : List (String × β), (l.any fun p => p.1 = k) = true →
    (l.map fun p => if p.1 = k then (k, v) else p).lookup k = some v := by
  intro l
  induction l with
  | nil => simp
  | cons p t ih =>
    intro hany
    by_cases hp : p.1 = k
    · simp [List.lookup_cons, if_pos hp]
    · simp only [List.any_cons, decide_eq_true_eq, Bool.or_eq_true] at hany
      rcases hany with h | h
      · exact absurd h hp
      · simp only [List.map_cons, if_neg hp]
        rw [List.lookup_cons]
        have hk : (k == p.1) = false := by
          simp only [beq_eq_false_iff_ne, ne_eq]
          exact fun hh => hp hh.symm
        rw [hk]
        exact ih h

theorem lookup_append_new {β : Type} (k : String) (v : β) :
    ∀ l : List (String × β), (l.any fun p => p.1 = k) = false →
    (l ++ [(k, v)]).lookup k = some v := by
  intro l
  induction l with
  | nil => simp
  | cons p t ih =>
    intro hany
    simp only [List.any_cons, Bool.or_eq_false_iff, decide_eq_false_iff_not] at hany
    simp only [List.cons_append]
    rw [List.lookup_cons]
    have hk : (k == p.1) = false := by
      simp only [beq_eq_false_iff_ne, ne_eq]
      exact fun hh => hany.1 hh.symm
    rw [hk]
    exact ih (by simpa using hany.2)

/-- `update_layer` writes the new binding so that looking the adapter up
afterwards yields exactly the configuration just stored. -/
theorem lookup_updateAssoc_self {β : Type} (l : List (String × β)) (k : String)
    (v : β) : (updateAssoc l k v).lookup k = some v := by
  unfold updateAssoc
  split
  · exact lookup_map_overwrite k v l (by assumption)
  · rename_i h
    exact lookup_append_new k v l (Bool.eq_false_iff.mpr h)

end WaveFT

namespace WaveFT

/-- `get_delta_weight` reads only the config map, the mode flag and the
layer dimensions: states agreeing on those yield the same delta. -/
theorem get_delta_weight_congr [Zero α] [Mul α]
    (w : Mat α → Mat α → Mat α → Mat α → String → Mat α)
    (st st' : WaveFTState α) (a : String)
    (h1 : st'.adapters = st.adapters) (h2 : st'.use_idwt = st.use_idwt)
    (h3 : st'.out_features = st.out_features)
    (h4 : st'.in_features = st.in_features) :
    get_delta_weight w st' a = get_delta_weight w st a := by
  simp only [get_delta_weight, idwtPreCrop, h1, h2, h3, h4]

/-- Claim C4: with `use_idwt = false`, `get_delta_weight` returns an
`out_features × in_features` matrix whose entry at `indices[:, i]` is
`spectrum[i] * scaling` for every `i < n_frequency`, and whose every
other entry is exactly zero. -/
theorem claim_C4_direct_mode_scatter
    (w : Mat ℚ → Mat ℚ → Mat ℚ → Mat ℚ → String → Mat ℚ)
    (st : WaveFTState ℚ) (adapter : String) (cfg : AdapterCfg ℚ)
    (hmode : st.use_idwt = false)
    (hcfg : st.adapters.lookup adapter = some cfg)
    (hnd : cfg.indices.Nodup)
    (hni : cfg.indices.length = cfg.n_frequency)
    (hns : cfg.spectrum.length = cfg.n_frequency) :
    ∃ D, get_delta_weight w st adapter = some D ∧
      D.rows = st.out_features ∧ D.cols = st.in_features ∧
      (∀ i, i < cfg.n_frequency →
        D.entry (cfg.indices.getD i (0, 0)).1 (cfg.indices.getD i (0, 0)).2 =
          cfg.spectrum.getD i 0 * cfg.scaling) ∧
      (∀ r c, (r, c) ∉ cfg.indices → D.entry r c = 0) := by
  have hD : get_delta_weight w st adapter =
      some (((Mat.zeros st.out_features st.in_features
          cfg.spectrumDtype).scatter (cfg.indices.zip cfg.spectrum)).smul
        cfg.scaling) := by
    simp [get_delta_weight, hcfg, hmode]
  refine ⟨_, hD, ?_, ?_, ?_, ?_⟩
  · simp [Mat.smul, Mat.scatter_rows, Mat.zeros]
  · simp [Mat.smul, Mat.scatter_cols, Mat.zeros]
  · intro i hi
    have hi1 : i < cfg.indices.length := by omega
    have hi2 : i < cfg.spectrum.length := by omega
    have hg1 : cfg.indices.getD i (0, 0) = cfg.indices[i] :=
      List.getD_eq_getElem _ _ hi1
    have hg2 : cfg.spectrum.getD i 0 = cfg.spectrum[i] :=
      List.getD_eq_getElem _ _ hi2
    have hfst : (cfg.indices.zip cfg.spectrum).map Prod.fst = cfg.indices :=
      List.map_fst_zip _ _ (by omega)
    have hlz : i < (cfg.indices.zip cfg.spectrum).length := by
      rw [List.length_zip]
      omega
    have hmem : ((cfg.indices[i], cfg.spectrum[i])) ∈
        cfg.indices.zip cfg.spectrum := by
      have hgz : (cfg.indices.zip cfg.spectrum)[i] =
          (cfg.indices[i], cfg.spectrum[i]) :=
        List.getElem_zip (h := hlz)
      rw [← hgz]
      exact List.getElem_mem hlz
    rw [hg1, hg2]
    simp only [Mat.smul]
    rw [Mat.scatter_entry_of_mem (cfg.indices.zip cfg.spectrum)
      cfg.indices[i].1 cfg.indices[i].2 cfg.spectrum[i] _
      (by rw [hfst]; exact hnd) hmem]
  · intro r c hnm
    simp only [Mat.smul]
    rw [Mat.scatter_entry_of_not_mem]
    · simp [Mat.zeros]
    · intro pr hpr heq
      apply hnm
      rw [← heq]
      have hm : pr.1 ∈ (cfg.indices.zip cfg.spectrum).map Prod.fst :=
        List.mem_map_of_mem Prod.fst hpr
      rwa [List.map_fst_zip _ _ (by omega)] at hm

/-- Witness for C4 at a concrete direct-mode layer. -/
theorem claim_C4_witness :
    stEx.use_idwt = false ∧
    stEx.adapters.lookup "a" = some cfgEx ∧
    (∃ D, get_delta_weight wIdent stEx "a" = some D ∧
      D.rows = stEx.out_features ∧ D.cols = stEx.in_features ∧
      (∀ i, i < cfgEx.n_frequency →
        D.entry (cfgEx.indices.getD i (0, 0)).1
            (cfgEx.indices.getD i (0, 0)).2 =
          cfgEx.spectrum.getD i 0 * cfgEx.scaling) ∧
      (∀ r c, (r, c) ∉ cfgEx.indices → D.entry r c = 0)) :=
  ⟨rfl, rfl,
    claim_C4_direct_mode_scatter wIdent stEx "a" cfgEx rfl rfl (by decide)
      rfl rfl⟩

/-- Claim C5: in IDWT mode, for in-range original indices and any
registered wavelet family, every index shifted by the centering offsets
lies strictly inside the padded grid, so the defensive bounds filter of
`get_delta_weight` keeps every (index, spectrum-value) pair and the
scatter receives all `n_frequency` values. -/
theorem claim_C5_padding_filter_keeps_all
    (st : WaveFTState ℚ) (cfg : AdapterCfg ℚ) (rr rc : ℕ)
    (hfam : WAVELET_REDUCTIONS.lookup cfg.wavelet_family = some (rr, rc))
    (hidx : ∀ p ∈ cfg.indices, p.1 < st.out_features ∧ p.2 < st.in_features)
    (hni : cfg.indices.length = cfg.n_frequency)
    (hns : cfg.spectrum.length = cfg.n_frequency) :
    (∀ p ∈ cfg.indices,
      p.1 + centerOffset (paddedDim st.out_features rr) st.out_features <
        paddedDim st.out_features rr ∧
      p.2 + centerOffset (paddedDim st.in_features rc) st.in_features <
        paddedDim st.in_features rc) ∧
    validPairs cfg (centerOffset (paddedDim st.out_features rr) st.out_features)
        (centerOffset (paddedDim st.in_features rc) st.in_features)
        (paddedDim st.out_features rr) (paddedDim st.in_features rc) =
      (cfg.indices.map fun q =>
        (q.1 + centerOffset (paddedDim st.out_features rr) st.out_features,
         q.2 + centerOffset (paddedDim st.in_features rc) st.in_features)).zip
        cfg.spectrum ∧
    (validPairs cfg (centerOffset (paddedDim st.out_features rr) st.out_features)
        (centerOffset (paddedDim st.in_features rc) st.in_features)
        (paddedDim st.out_features rr) (paddedDim st.in_features rc)).length =
      cfg.n_frequency := by
  have hbound : ∀ p ∈ cfg.indices,
      p.1 + centerOffset (paddedDim st.out_features rr) st.out_features <
        paddedDim st.out_features rr ∧
      p.2 + centerOffset (paddedDim st.in_features rc) st.in_features <
        paddedDim st.in_features rc := by
    intro p hp
    exact ⟨centerOffset_add_lt _ _ _ (hidx p hp).1 (self_le_paddedDim _ _),
           centerOffset_add_lt _ _ _ (hidx p hp).2 (self_le_paddedDim _ _)⟩
  have hkeep : validPairs cfg
      (centerOffset (paddedDim st.out_features rr) st.out_features)
      (centerOffset (paddedDim st.in_features rc) st.in_features)
      (paddedDim st.out_features rr) (paddedDim st.in_features rc) =
      (cfg.indices.map fun q =>
        (q.1 + centerOffset (paddedDim st.out_features rr) st.out_features,
         q.2 + centerOffset (paddedDim st.in_features rc) st.in_features)).zip
        cfg.spectrum := by
    unfold validPairs
    rw [List.filter_eq_self]
    intro x hx
    have hx1 := (List.of_mem_zip hx).1
    rcases List.mem_map.mp hx1 with ⟨q, hq, hqx⟩
    have hb := hbound q hq
    rw [← hqx] at *
    simp only [Bool.and_eq_true, decide_eq_true_eq]
    exact ⟨hb.1, hb.2⟩
  refine ⟨hbound, hkeep, ?_⟩
  rw [hkeep, List.length_zip, List.length_map, hni, hns, Nat.min_self]

/-- Witness for C5: the concrete adapter `cfgEx` on a 2×3 grid, family
db2. -/
theorem claim_C5_witness :
    WAVELET_REDUCTIONS.lookup "db1" = some (0, 0) ∧
    (validPairs cfgEx (centerOffset (paddedDim stEx.out_features 0) stEx.out_features)
        (centerOffset (paddedDim stEx.in_features 0) stEx.in_features)
        (paddedDim stEx.out_features 0) (paddedDim stEx.in_features 0)).length =
      cfgEx.n_frequency := by
  have h := claim_C5_padding_filter_keeps_all stEx cfgEx 0 0 (by decide)
    (by decide) rfl rfl
  exact ⟨by decide, h.2.2⟩

/-- On valid inputs `update_layer` succeeds, storing under the adapter
name a configuration whose fields are exactly the validated inputs, the
chosen spectrum initialization, and the seed-determined indices. -/
theorem update_layer_ok
    (randperm : ℕ → ℕ → List ℕ) (randnInit : ℕ → List ℚ)
    (st : WaveFTState ℚ) (adapter_name : String) (n : ℕ) (sc : ℚ)
    (init_weights : Bool) (seed : ℕ) (f : String)
    (hn : 0 < n) (hn2 : n ≤ st.out_features * st.in_features)
    (hfam : (WAVELET_REDUCTIONS.lookup f).isSome = true) :
    ∃ cfg : AdapterCfg ℚ,
      update_layer randperm randnInit st adapter_name (n : ℤ) sc init_weights
          seed f =
        .ok { st with adapters := updateAssoc st.adapters adapter_name cfg } ∧
      cfg.n_frequency = n ∧ cfg.scaling = sc ∧ cfg.random_loc_seed = seed ∧
      cfg.wavelet_family = f ∧
      cfg.spectrum =
        (if init_weights then List.replicate n (0 : ℚ) else randnInit n) ∧
      cfg.spectrumDtype = 0 ∧
      cfg.indices =
        ((randperm seed (st.out_features * st.in_features)).take n).map
          (fun v => (v / st.in_features, v % st.in_features)) := by
  simp only [update_layer]
  rw [if_neg (by omega)]
  rw [if_neg (by
    push_neg
    have hc : ((st.in_features : ℤ)) * st.out_features =
        ((st.out_features : ℤ)) * st.in_features := mul_comm _ _
    have h2c : ((n : ℤ)) ≤ ((st.out_features : ℤ)) * st.in_features := by
      exact_mod_cast hn2
    linarith)]
  rw [if_neg (by
    intro h
    rw [Option.isNone_iff_eq_none] at h
    rw [h] at hfam
    simp at hfam)]
  refine ⟨_, rfl, ?_, rfl, rfl, rfl, rfl, rfl, ?_⟩
  · simp
  · simp [List.map_take]

/-- Claim C3: for valid inputs, `update_layer` stores as `indices` the
first `n_frequency` entries of the seed-deterministic permutation of
`[0, out_features*in_features)`, decomposed as
`(v / in_features, v % in_features)`; these are exactly `n_frequency`
distinct in-range pairs, and repeating the call with the same seed and
grid size reproduces them bit for bit. -/
theorem claim_C3_update_layer_indices
    (randperm : ℕ → ℕ → List ℕ) (randnInit : ℕ → List ℚ)
    (st : WaveFTState ℚ) (adapter_name : String) (n : ℕ) (sc : ℚ)
    (init_weights : Bool) (seed : ℕ) (f : String)
    (hperm : (randperm seed (st.out_features * st.in_features)).Perm
      (List.range (st.out_features * st.in_features)))
    (hn : 0 < n) (hn2 : n ≤ st.out_features * st.in_features)
    (hfam : (WAVELET_REDUCTIONS.lookup f).isSome = true) :
    ∃ cfg : AdapterCfg ℚ,
      update_layer randperm randnInit st adapter_name (n : ℤ) sc init_weights
          seed f =
        .ok { st with adapters := updateAssoc st.adapters adapter_name cfg } ∧
      cfg.indices =
        ((randperm seed (st.out_features * st.in_features)).take n).map
          (fun v => (v / st.in_features, v % st.in_features)) ∧
      cfg.indices.length = n ∧
      cfg.indices.Nodup ∧
      (∀ p ∈ cfg.indices, p.1 < st.out_features ∧ p.2 < st.in_features) ∧
      (∀ st2 : WaveFTState ℚ, st2.out_features = st.out_features →
        st2.in_features = st.in_features →
        ∃ cfg2 : AdapterCfg ℚ,
          update_layer randperm randnInit st2 adapter_name (n : ℤ) sc
              init_weights seed f =
            .ok { st2 with
                  adapters := updateAssoc st2.adapters adapter_name cfg2 } ∧
          cfg2.indices = cfg.indices) := by
  have hin : 0 < st.in_features := by
    rcases Nat.eq_zero_or_pos st.in_features with h | h
    · rw [h, Nat.mul_zero] at hn2
      omega
    · exact h
  obtain ⟨cfg, hok, hnf, hsc2, hseed2, hf2, hspec, hdt, hidx⟩ :=
    update_layer_ok randperm randnInit st adapter_name n sc init_weights seed
      f hn hn2 hfam
  have hlen : (randperm seed (st.out_features * st.in_features)).length =
      st.out_features * st.in_features := by
    rw [hperm.length_eq, List.length_range]
  have hndperm := hperm.nodup_iff.mpr (List.nodup_range
    (st.out_features * st.in_features))
  have hmem : ∀ v ∈ (randperm seed (st.out_features * st.in_features)).take n,
      v < st.out_features * st.in_features := by
    intro v hv
    have hv2 : v ∈ randperm seed (st.out_features * st.in_features) :=
      List.mem_of_mem_take hv
    have := hperm.mem_iff.mp hv2
    simpa using this
  refine ⟨cfg, hok, hidx, ?_, ?_, ?_, ?_⟩
  · rw [hidx, List.length_map, List.length_take, hlen]
    omega
  · rw [hidx]
    refine List.Nodup.map ?_ ((List.take_sublist _ _).nodup hndperm)
    intro a b h
    rw [Prod.mk.injEq] at h
    have e1 := Nat.div_add_mod a st.in_features
    have e2 := Nat.div_add_mod b st.in_features
    rw [h.1, h.2] at e1
    exact e1.symm.trans e2
  · intro p hp
    rw [hidx] at hp
    rcases List.mem_map.mp hp with ⟨v, hv, hvp⟩
    have hvN := hmem v hv
    rw [← hvp]
    exact ⟨(Nat.div_lt_iff_lt_mul hin).mpr hvN, Nat.mod_lt _ hin⟩
  · intro st2 h1 h2
    obtain ⟨cfg2, hok2, _, _, _, _, _, _, hidx2⟩ :=
      update_layer_ok randperm randnInit st2 adapter_name n sc init_weights
        seed f hn (by rw [h1, h2]; exact hn2) hfam
    refine ⟨cfg2, hok2, ?_⟩
    rw [hidx2, hidx, h1, h2]

/-- Witness for C3: identity permutation on a 2×3 grid, n = 2,
seed 7. -/
theorem claim_C3_witness :
    0 < 2 ∧ 2 ≤ stEx.out_features * stEx.in_features ∧
    (∃ cfg : AdapterCfg ℚ,
      update_layer (fun _ n => List.range n) (fun _ => []) stEx "b"
          ((2 : ℕ) : ℤ) 3 true 7 "db2" =
        .ok { stEx with adapters := updateAssoc stEx.adapters "b" cfg } ∧
      cfg.indices =
        (((fun (_ : ℕ) n => List.range n) 7
            (stEx.out_features * stEx.in_features)).take 2).map
          (fun v => (v / stEx.in_features, v % stEx.in_features)) ∧
      cfg.indices.length = 2 ∧
      cfg.indices.Nodup ∧
      (∀ p ∈ cfg.indices, p.1 < stEx.out_features ∧ p.2 < stEx.in_features) ∧
      (∀ st2 : WaveFTState ℚ, st2.out_features = stEx.out_features →
        st2.in_features = stEx.in_features →
        ∃ cfg2 : AdapterCfg ℚ,
          update_layer (fun _ n => List.range n) (fun _ => []) st2 "b"
              ((2 : ℕ) : ℤ) 3 true 7 "db2" =
            .ok { st2 with
                  adapters := updateAssoc st2.adapters "b" cfg2 } ∧
          cfg2.indices = cfg.indices)) :=
  ⟨by decide, by decide,
    claim_C3_update_layer_indices (fun _ n => List.range n) (fun _ => []) stEx
      "b" 2 3 true 7 "db2" (List.Perm.refl _) (by decide) (by decide)
      (by decide)⟩

/-- Claim C7: `update_layer` fails exactly when `n_frequency ≤ 0`, when
`n_frequency` exceeds `in_features * out_features`, or when the wavelet
family is not a registered key (then the message lists the supported
families); the boundary `n_frequency = in_features * out_features` is
accepted, and an error leaves the layer state — in particular its config
map — unchanged. -/
theorem claim_C7_update_layer_validation
    (randperm : ℕ → ℕ → List ℕ) (randnInit : ℕ → List ℚ)
    (st : WaveFTState ℚ) (a : String) (n : ℤ) (sc : ℚ) (init_weights : Bool)
    (seed : ℕ) (f : String) :
    ((∃ p, update_layer randperm randnInit st a n sc init_weights seed f =
        .error p) ↔
      (n ≤ 0 ∨ (st.in_features * st.out_features : ℤ) < n ∨
        (WAVELET_REDUCTIONS.lookup f).isNone = true)) ∧
    (∀ p, update_layer randperm randnInit st a n sc init_weights seed f =
      .error p → p.1 = st) ∧
    (0 < n → n ≤ (st.in_features * st.out_features : ℤ) →
      (WAVELET_REDUCTIONS.lookup f).isNone = true →
      update_layer randperm randnInit st a n sc init_weights seed f =
        .error (st, unsupportedFamilyMsg f)) := by
  unfold update_layer
  split_ifs with h1 h2 h3
  · refine ⟨⟨fun _ => Or.inl h1, fun _ => ⟨(st, nFreqPositiveMsg n), rfl⟩⟩,
      ?_, ?_⟩
    · intro p hp
      cases hp
      rfl
    · intro hpos
      omega
  · refine ⟨⟨fun _ => Or.inr (Or.inl h2), fun _ =>
      ⟨(st, nFreqTooLargeMsg n (st.in_features * st.out_features)), rfl⟩⟩,
      ?_, ?_⟩
    · intro p hp
      cases hp
      rfl
    · intro hpos hle
      omega
  · refine ⟨⟨fun _ => Or.inr (Or.inr h3), fun _ =>
      ⟨(st, unsupportedFamilyMsg f), rfl⟩⟩, ?_, ?_⟩
    · intro p hp
      cases hp
      rfl
    · intro _ _ _
      rfl
  · refine ⟨⟨?_, ?_⟩, ?_, ?_⟩
    · intro ⟨p, hp⟩
      simp at hp
    · intro h
      rcases h with h | h | h
      · exact absurd h h1
      · exact absurd h h2
      · exact absurd h h3
    · intro p hp
      simp at hp
    · intro _ _ h
      exact absurd h h3

/-- Witness for C7: an unsupported family name on the concrete layer is
rejected with the family-listing message and an unchanged state. -/
theorem claim_C7_witness :
    (0 : ℤ) < 1 ∧ (1 : ℤ) ≤ (stEx.in_features * stEx.out_features : ℤ) ∧
    (WAVELET_REDUCTIONS.lookup "haar").isNone = true ∧
    update_layer (fun _ n => List.range n) (fun _ => []) stEx "c" 1 0 true 0
        "haar" =
      .error (stEx, unsupportedFamilyMsg "haar") :=
  ⟨by decide, by decide, by decide,
    (claim_C7_update_layer_validation (fun _ n => List.range n) (fun _ => [])
        stEx "c" 1 0 true 0 "haar").2.2 (by decide) (by decide) (by decide)⟩

theorem Mat.smul_rows [Mul α] (m : Mat α) (sc : α) : (m.smul sc).rows = m.rows :=
  rfl

theorem Mat.smul_cols [Mul α] (m : Mat α) (sc : α) : (m.smul sc).cols = m.cols :=
  rfl

theorem denseSpectrum_rows [Zero α] (cfg : AdapterCfg α) (ro co pOut pIn : ℕ) :
    (denseSpectrum cfg ro co pOut pIn).rows = pOut := by
  simp [denseSpectrum, Mat.scatter_rows, Mat.zeros]

theorem denseSpectrum_cols [Zero α] (cfg : AdapterCfg α) (ro co pOut pIn : ℕ) :
    (denseSpectrum cfg ro co pOut pIn).cols = pIn := by
  simp [denseSpectrum, Mat.scatter_cols, Mat.zeros]

/-- `idwtPreCrop` written out: the reconstruction kernel applied to the
four quadrants of the padded dense spectrum, scaled. -/
theorem idwtPreCrop_eq [Zero α] [Mul α]
    (w : Mat α → Mat α → Mat α → Mat α → String → Mat α)
    (st : WaveFTState α) (cfg : AdapterCfg α) (rr rc : ℕ) :
    idwtPreCrop w st cfg rr rc =
      (w ((denseSpectrum cfg
            (centerOffset (paddedDim st.out_features rr) st.out_features)
            (centerOffset (paddedDim st.in_features rc) st.in_features)
            (paddedDim st.out_features rr) (paddedDim st.in_features rc)).slice
            0 (paddedDim st.out_features rr / 2) 0 (paddedDim st.in_features rc / 2))
         ((denseSpectrum cfg
            (centerOffset (paddedDim st.out_features rr) st.out_features)
            (centerOffset (paddedDim st.in_features rc) st.in_features)
            (paddedDim st.out_features rr) (paddedDim st.in_features rc)).slice
            0 (paddedDim st.out_features rr / 2) (paddedDim st.in_features rc / 2)
            (paddedDim st.in_features rc - paddedDim st.in_features rc / 2))
         ((denseSpectrum cfg
            (centerOffset (paddedDim st.out_features rr) st.out_features)
            (centerOffset (paddedDim st.in_features rc) st.in_features)
            (paddedDim st.out_features rr) (paddedDim st.in_features rc)).slice
            (paddedDim st.out_features rr / 2)
            (paddedDim st.out_features rr - paddedDim st.out_features rr / 2)
            0 (paddedDim st.in_features rc / 2))
         ((denseSpectrum cfg
            (centerOffset (paddedDim st.out_features rr) st.out_features)
            (centerOffset (paddedDim st.in_features rc) st.in_features)
            (paddedDim st.out_features rr) (paddedDim st.in_features rc)).slice
            (paddedDim st.out_features rr / 2)
            (paddedDim st.out_features rr - paddedDim st.out_features rr / 2)
            (paddedDim st.in_features rc / 2)
            (paddedDim st.in_features rc - paddedDim st.in_features rc / 2))
         cfg.wavelet_family).smul cfg.scaling :=
  rfl

/-- Under the kernel shape contract, the pre-crop reconstruction is at
least as large as the padded grid in both dimensions. -/
theorem idwtPreCrop_dims
    (w : Mat ℚ → Mat ℚ → Mat ℚ → Mat ℚ → String → Mat ℚ)
    (st : WaveFTState ℚ) (cfg : AdapterCfg ℚ) (rr rc : ℕ)
    (hshape : ∀ (cA cH cV cD : Mat ℚ) (fam : String),
      cH.rows = cA.rows → cV.rows = cA.rows → cD.rows = cA.rows →
      cH.cols = cA.cols → cV.cols = cA.cols → cD.cols = cA.cols →
      2 * cA.rows ≤ (w cA cH cV cD fam).rows ∧
      2 * cA.cols ≤ (w cA cH cV cD fam).cols) :
    paddedDim st.out_features rr ≤ (idwtPreCrop w st cfg rr rc).rows ∧
    paddedDim st.in_features rc ≤ (idwtPreCrop w st cfg rr rc).cols := by
  have hPeven := paddedDim_even st.out_features rr
  have hQeven := paddedDim_even st.in_features rc
  rw [idwtPreCrop_eq, Mat.smul_rows, Mat.smul_cols]
  set P := paddedDim st.out_features rr with hP
  set Q := paddedDim st.in_features rc with hQ
  set Dm := denseSpectrum cfg (centerOffset P st.out_features)
    (centerOffset Q st.in_features) P Q with hDm
  have hDr : Dm.rows = P := denseSpectrum_rows _ _ _ _ _
  have hDc : Dm.cols = Q := denseSpectrum_cols _ _ _ _ _
  have sA_r : (Dm.slice 0 (P / 2) 0 (Q / 2)).rows = P / 2 :=
    Mat.slice_rows_of_le _ _ _ _ _ (by omega)
  have sA_c : (Dm.slice 0 (P / 2) 0 (Q / 2)).cols = Q / 2 :=
    Mat.slice_cols_of_le _ _ _ _ _ (by omega)
  have sH_r : (Dm.slice 0 (P / 2) (Q / 2) (Q - Q / 2)).rows = P / 2 :=
    Mat.slice_rows_of_le _ _ _ _ _ (by omega)
  have sH_c : (Dm.slice 0 (P / 2) (Q / 2) (Q - Q / 2)).cols = Q - Q / 2 :=
    Mat.slice_cols_of_le _ _ _ _ _ (by omega)
  have sV_r : (Dm.slice (P / 2) (P - P / 2) 0 (Q / 2)).rows = P - P / 2 :=
    Mat.slice_rows_of_le _ _ _ _ _ (by omega)
  have sV_c : (Dm.slice (P / 2) (P - P / 2) 0 (Q / 2)).cols = Q / 2 :=
    Mat.slice_cols_of_le _ _ _ _ _ (by omega)
  have sD_r : (Dm.slice (P / 2) (P - P / 2) (Q / 2) (Q - Q / 2)).rows =
      P - P / 2 :=
    Mat.slice_rows_of_le _ _ _ _ _ (by omega)
  have sD_c : (Dm.slice (P / 2) (P - P / 2) (Q / 2) (Q - Q / 2)).cols =
      Q - Q / 2 :=
    Mat.slice_cols_of_le _ _ _ _ _ (by omega)
  have h := hshape (Dm.slice 0 (P / 2) 0 (Q / 2))
    (Dm.slice 0 (P / 2) (Q / 2) (Q - Q / 2))
    (Dm.slice (P / 2) (P - P / 2) 0 (Q / 2))
    (Dm.slice (P / 2) (P - P / 2) (Q / 2) (Q - Q / 2))
    cfg.wavelet_family
    (by rw [sH_r, sA_r])
    (by rw [sV_r, sA_r]; omega)
    (by rw [sD_r, sA_r]; omega)
    (by rw [sH_c, sA_c]; omega)
    (by rw [sV_c, sA_c])
    (by rw [sD_c, sA_c]; omega)
  rw [sA_r, sA_c] at h
  omega

/-- IDWT-mode `get_delta_weight`, resolved: the result is the pre-crop
reconstruction when its shape already matches, and the centered crop of
it otherwise; either way the shape is exactly the target, and zero input
data yields zero output. -/
theorem get_delta_idwt_spec
    (w : Mat ℚ → Mat ℚ → Mat ℚ → Mat ℚ → String → Mat ℚ)
    (st : WaveFTState ℚ) (a : String) (cfg : AdapterCfg ℚ) (rr rc : ℕ)
    (hmode : st.use_idwt = true)
    (hcfg : st.adapters.lookup a = some cfg)
    (hfam : WAVELET_REDUCTIONS.lookup cfg.wavelet_family = some (rr, rc))
    (hr : st.out_features ≤ (idwtPreCrop w st cfg rr rc).rows)
    (hc : st.in_features ≤ (idwtPreCrop w st cfg rr rc).cols) :
    ∃ D, get_delta_weight w st a = some D ∧
      D.rows = st.out_features ∧ D.cols = st.in_features ∧
      ((idwtPreCrop w st cfg rr rc).rows = st.out_features →
        (idwtPreCrop w st cfg rr rc).cols = st.in_features →
        D = idwtPreCrop w st cfg rr rc) ∧
      (¬ ((idwtPreCrop w st cfg rr rc).rows = st.out_features ∧
          (idwtPreCrop w st cfg rr rc).cols = st.in_features) →
        D = (idwtPreCrop w st cfg rr rc).slice
          (((idwtPreCrop w st cfg rr rc).rows - st.out_features) / 2)
          st.out_features
          (((idwtPreCrop w st cfg rr rc).cols - st.in_features) / 2)
          st.in_features) ∧
      ((idwtPreCrop w st cfg rr rc).IsZero → D.IsZero) := by
  have hgd : get_delta_weight w st a =
      (if (idwtPreCrop w st cfg rr rc).rows ≠ st.out_features ∨
          (idwtPreCrop w st cfg rr rc).cols ≠ st.in_features then
        some ((idwtPreCrop w st cfg rr rc).slice
          (((idwtPreCrop w st cfg rr rc).rows - st.out_features) / 2)
          st.out_features
          (((idwtPreCrop w st cfg rr rc).cols - st.in_features) / 2)
          st.in_features)
      else some (idwtPreCrop w st cfg rr rc)) := by
    simp only [get_delta_weight, hcfg, hmode, hfam, if_true]
  by_cases hcase : (idwtPreCrop w st cfg rr rc).rows ≠ st.out_features ∨
      (idwtPreCrop w st cfg rr rc).cols ≠ st.in_features
  · rw [hgd, if_pos hcase]
    refine ⟨_, rfl, Mat.slice_rows_of_le _ _ _ _ _ (by omega),
      Mat.slice_cols_of_le _ _ _ _ _ (by omega), ?_, fun _ => rfl, ?_⟩
    · intro h1 h2
      rcases hcase with h | h
      · exact absurd h1 h
      · exact absurd h2 h
    · intro hz
      exact Mat.slice_isZero _ _ _ _ _ hz
  · push_neg at hcase
    rw [hgd, if_neg (by push_neg; exact hcase)]
    refine ⟨_, rfl, hcase.1, hcase.2, fun _ _ => rfl, ?_, fun hz => hz⟩
    intro hcon
    exact absurd hcase hcon

/-- Claim C9: in IDWT mode, under the kernel shape contract,
`get_delta_weight` returns a matrix of shape exactly
`(out_features, in_features)`: the centered crop starting at
`((recRows - out) / 2, (recCols - in) / 2)` when the reconstructed shape
differs from the target, and the uncropped reconstruction when it already
matches. -/
theorem claim_C9_idwt_crop_shape
    (w : Mat ℚ → Mat ℚ → Mat ℚ → Mat ℚ → String → Mat ℚ)
    (st : WaveFTState ℚ) (a : String) (cfg : AdapterCfg ℚ) (rr rc : ℕ)
    (hmode : st.use_idwt = true)
    (hcfg : st.adapters.lookup a = some cfg)
    (hfam : WAVELET_REDUCTIONS.lookup cfg.wavelet_family = some (rr, rc))
    (hshape : ∀ (cA cH cV cD : Mat ℚ) (fam : String),
      cH.rows = cA.rows → cV.rows = cA.rows → cD.rows = cA.rows →
      cH.cols = cA.cols → cV.cols = cA.cols → cD.cols = cA.cols →
      2 * cA.rows ≤ (w cA cH cV cD fam).rows ∧
      2 * cA.cols ≤ (w cA cH cV cD fam).cols) :
    ∃ D, get_delta_weight w st a = some D ∧
      D.rows = st.out_features ∧ D.cols = st.in_features ∧
      ((idwtPreCrop w st cfg rr rc).rows = st.out_features →
        (idwtPreCrop w st cfg rr rc).cols = st.in_features →
        D = idwtPreCrop w st cfg rr rc) ∧
      (¬ ((idwtPreCrop w st cfg rr rc).rows = st.out_features ∧
          (idwtPreCrop w st cfg rr rc).cols = st.in_features) →
        D = (idwtPreCrop w st cfg rr rc).slice
          (((idwtPreCrop w st cfg rr rc).rows - st.out_features) / 2)
          st.out_features
          (((idwtPreCrop w st cfg rr rc).cols - st.in_features) / 2)
          st.in_features) := by
  have hd := idwtPreCrop_dims w st cfg rr rc hshape
  obtain ⟨D, h1, h2, h3, h4, h5, _⟩ := get_delta_idwt_spec w st a cfg rr rc
    hmode hcfg hfam (le_trans (self_le_paddedDim _ _) hd.1)
    (le_trans (self_le_paddedDim _ _) hd.2)
  exact ⟨D, h1, h2, h3, h4, h5⟩

/-- Witness for C9: concrete IDWT-mode layer with a contract-honouring
kernel. -/
theorem claim_C9_witness :
    stExI.use_idwt = true ∧
    stExI.adapters.lookup "a" = some cfgEx ∧
    WAVELET_REDUCTIONS.lookup cfgEx.wavelet_family = some (0, 0) ∧
    (∃ D, get_delta_weight wZero stExI "a" = some D ∧
      D.rows = stExI.out_features ∧ D.cols = stExI.in_features ∧
      ((idwtPreCrop wZero stExI cfgEx 0 0).rows = stExI.out_features →
        (idwtPreCrop wZero stExI cfgEx 0 0).cols = stExI.in_features →
        D = idwtPreCrop wZero stExI cfgEx 0 0) ∧
      (¬ ((idwtPreCrop wZero stExI cfgEx 0 0).rows = stExI.out_features ∧
          (idwtPreCrop wZero stExI cfgEx 0 0).cols = stExI.in_features) →
        D = (idwtPreCrop wZero stExI cfgEx 0 0).slice
          (((idwtPreCrop wZero stExI cfgEx 0 0).rows - stExI.out_features) / 2)
          stExI.out_features
          (((idwtPreCrop wZero stExI cfgEx 0 0).cols - stExI.in_features) / 2)
          stExI.in_features)) :=
  ⟨rfl, rfl, by decide,
    claim_C9_idwt_crop_shape wZero stExI "a" cfgEx 0 0 rfl rfl (by decide)
      (fun cA cH cV cD fam _ _ _ _ _ _ =>
        ⟨Nat.le_refl (2 * cA.rows), Nat.le_refl (2 * cA.cols)⟩)⟩

/-- Claim C8: immediately after a zero-initializing `update_layer`, the
spectrum is all zeros and `get_delta_weight` yields an all-zero matrix of
the base shape, for any registered wavelet family and in either mode,
assuming the reconstruction kernel maps zero sub-bands to a zero matrix
and honours its shape contract. -/
theorem claim_C8_zero_init_zero_delta
    (randperm : ℕ → ℕ → List ℕ) (randnInit : ℕ → List ℚ)
    (w : Mat ℚ → Mat ℚ → Mat ℚ → Mat ℚ → String → Mat ℚ)
    (st : WaveFTState ℚ) (a : String) (n : ℕ) (sc : ℚ) (seed : ℕ)
    (f : String) (rr rc : ℕ)
    (hn : 0 < n) (hn2 : n ≤ st.out_features * st.in_features)
    (hfam : WAVELET_REDUCTIONS.lookup f = some (rr, rc))
    (hshape : ∀ (cA cH cV cD : Mat ℚ) (fam : String),
      cH.rows = cA.rows → cV.rows = cA.rows → cD.rows = cA.rows →
      cH.cols = cA.cols → cV.cols = cA.cols → cD.cols = cA.cols →
      2 * cA.rows ≤ (w cA cH cV cD fam).rows ∧
      2 * cA.cols ≤ (w cA cH cV cD fam).cols)
    (hzero : ∀ (cA cH cV cD : Mat ℚ) (fam : String),
      cA.IsZero → cH.IsZero → cV.IsZero → cD.IsZero →
      (w cA cH cV cD fam).IsZero) :
    ∃ (cfg : AdapterCfg ℚ) (D : Mat ℚ),
      update_layer randperm randnInit st a (n : ℤ) sc true seed f =
        .ok { st with adapters := updateAssoc st.adapters a cfg } ∧
      cfg.spectrum = List.replicate n (0 : ℚ) ∧
      get_delta_weight w
          { st with adapters := updateAssoc st.adapters a cfg } a = some D ∧
      D.rows = st.out_features ∧ D.cols = st.in_features ∧ D.IsZero := by
  obtain ⟨cfg, hok, hnf, hsc2, hseed2, hf2, hspec, hdt, hidx⟩ :=
    update_layer_ok randperm randnInit st a n sc true seed f hn hn2
      (by rw [hfam]; rfl)
  rw [if_pos rfl] at hspec
  refine ⟨cfg, ?_⟩
  set st' : WaveFTState ℚ :=
    { st with adapters := updateAssoc st.adapters a cfg } with hst'
  have hlook : st'.adapters.lookup a = some cfg :=
    lookup_updateAssoc_self st.adapters a cfg
  have hsz : ∀ pr ∈ cfg.indices.zip cfg.spectrum, pr.2 = (0 : ℚ) := by
    intro pr hpr
    have := (List.of_mem_zip hpr).2
    rw [hspec] at this
    exact List.eq_of_mem_replicate this
  cases hui : st.use_idwt with
  | false =>
    have hmode : st'.use_idwt = false := hui
    have hD : get_delta_weight w st' a =
        some (((Mat.zeros st'.out_features st'.in_features
            cfg.spectrumDtype).scatter (cfg.indices.zip cfg.spectrum)).smul
          cfg.scaling) := by
      simp [get_delta_weight, hlook, hui]
    refine ⟨_, hok, hspec, hD, ?_, ?_, ?_⟩
    · simp [Mat.smul, Mat.scatter_rows, Mat.zeros]
    · simp [Mat.smul, Mat.scatter_cols, Mat.zeros]
    · refine Mat.smul_isZero _ _ ?_
      intro i j _ _
      exact Mat.scatter_entry_zero _ _ hsz (fun _ _ => rfl) i j
  | true =>
    have hmode : st'.use_idwt = true := hui
    have hfam2 : WAVELET_REDUCTIONS.lookup cfg.wavelet_family =
        some (rr, rc) := by
      rw [hf2]
      exact hfam
    have hds : ∀ i j, (denseSpectrum cfg
        (centerOffset (paddedDim st'.out_features rr) st'.out_features)
        (centerOffset (paddedDim st'.in_features rc) st'.in_features)
        (paddedDim st'.out_features rr)
        (paddedDim st'.in_features rc)).entry i j = 0 := by
      intro i j
      refine Mat.scatter_entry_zero _ _ ?_ (fun _ _ => rfl) i j
      intro pr hpr
      have hpr2 := List.mem_of_mem_filter hpr
      have hmem := (List.of_mem_zip hpr2).2
      rw [hspec] at hmem
      exact List.eq_of_mem_replicate hmem
    have hpre : (idwtPreCrop w st' cfg rr rc).IsZero := by
      rw [idwtPreCrop_eq]
      refine Mat.smul_isZero _ _ ?_
      refine hzero _ _ _ _ _ ?_ ?_ ?_ ?_
      all_goals
        intro i j hi hj
        simp only [Mat.slice]
        exact hds _ _
    have hd := idwtPreCrop_dims w st' cfg rr rc hshape
    obtain ⟨D, hgdw, hrows, hcols, _, _, hz⟩ := get_delta_idwt_spec w st' a
      cfg rr rc hmode hlook hfam2
      (le_trans (self_le_paddedDim _ _) hd.1)
      (le_trans (self_le_paddedDim _ _) hd.2)
    exact ⟨D, hok, hspec, hgdw, hrows, hcols, hz hpre⟩

/-- Witness for C8: zero-init on the concrete IDWT-mode layer with a
contract-honouring zero kernel. -/
theorem claim_C8_witness :
    0 < 1 ∧ 1 ≤ stExI.out_features * stExI.in_features ∧
    WAVELET_REDUCTIONS.lookup "db1" = some (0, 0) ∧
    (∃ (cfg : AdapterCfg ℚ) (D : Mat ℚ),
      update_layer (fun _ n => List.range n) (fun _ => []) stExI "z"
          ((1 : ℕ) : ℤ) 5 true 3 "db1" =
        .ok { stExI with adapters := updateAssoc stExI.adapters "z" cfg } ∧
      cfg.spectrum = List.replicate 1 (0 : ℚ) ∧
      get_delta_weight wZero
          { stExI with adapters := updateAssoc stExI.adapters "z" cfg } "z" =
        some D ∧
      D.rows = stExI.out_features ∧ D.cols = stExI.in_features ∧
      D.IsZero) :=
  ⟨by decide, by decide, by decide,
    claim_C8_zero_init_zero_delta (fun _ n => List.range n) (fun _ => [])
      wZero stExI "z" 1 5 3 "db1" 0 0 (by decide) (by decide) (by decide)
      (fun cA cH cV cD fam _ _ _ _ _ _ =>
        ⟨Nat.le_refl (2 * cA.rows), Nat.le_refl (2 * cA.cols)⟩)
      (fun cA cH cV cD fam _ _ _ _ => fun i j _ _ => rfl)⟩

theorem get_delta_weight_congr_of_sameCore
    (w : Mat ℚ → Mat ℚ → Mat ℚ → Mat ℚ → String → Mat ℚ)
    (s st0 : WaveFTState ℚ) (a : String) (h : SameCore s st0) :
    get_delta_weight w s a = get_delta_weight w st0 a :=
  get_delta_weight_congr w st0 s a h.1 h.2.1 h.2.2.1 h.2.2.2

theorem get_delta_isSome
    (w : Mat ℚ → Mat ℚ → Mat ℚ → Mat ℚ → String → Mat ℚ)
    (st : WaveFTState ℚ) (nm : String) (cfg : AdapterCfg ℚ)
    (hcfg : st.adapters.lookup nm = some cfg)
    (hfam : (WAVELET_REDUCTIONS.lookup cfg.wavelet_family).isSome = true) :
    (get_delta_weight w st nm).isSome = true := by
  rcases Option.isSome_iff_exists.mp hfam with ⟨rrc, hrrc⟩
  rcases rrc with ⟨rr, rc⟩
  simp only [get_delta_weight, hcfg, hrrc]
  split
  · split <;> simp
  · simp

theorem mergeOne_skip
    (w : Mat ℚ → Mat ℚ → Mat ℚ → Mat ℚ → String → Mat ℚ)
    (isFin : ℚ → Bool) (safe : Bool) (s : WaveFTState ℚ) (nm : String)
    (hnone : s.adapters.lookup nm = none) :
    mergeOne w isFin safe s nm = .ok s := by
  simp [mergeOne, hnone]

theorem mergeOne_ok_of_mem
    (w : Mat ℚ → Mat ℚ → Mat ℚ → Mat ℚ → String → Mat ℚ)
    (isFin : ℚ → Bool) (safe : Bool) (s : WaveFTState ℚ) (nm : String)
    (cfg : AdapterCfg ℚ)
    (hfin : ∀ v : ℚ, isFin v = true)
    (hcfg : s.adapters.lookup nm = some cfg)
    (hfam : (WAVELET_REDUCTIONS.lookup cfg.wavelet_family).isSome = true) :
    ∃ d, get_delta_weight w s nm = some d ∧
      mergeOne w isFin safe s nm =
        .ok { s with
              baseWeight := s.baseWeight.add d,
              merged_adapters := s.merged_adapters ++ [nm] } := by
  rcases Option.isSome_iff_exists.mp (get_delta_isSome w s nm cfg hcfg hfam)
    with ⟨d, hd⟩
  refine ⟨d, hd, ?_⟩
  have hall := allFinite_of_isFin_true isFin hfin (s.baseWeight.add d)
  simp only [mergeOne, hcfg, Option.isSome_some, if_true, hd, hall]
  split <;> rfl

theorem mergeLoop_ok
    (w : Mat ℚ → Mat ℚ → Mat ℚ → Mat ℚ → String → Mat ℚ)
    (isFin : ℚ → Bool) (safe : Bool) (st0 : WaveFTState ℚ)
    (hfin : ∀ v : ℚ, isFin v = true) (hWF : FamiliesOK st0) :
    ∀ (names : List String) (s : WaveFTState ℚ), SameCore s st0 →
    ∃ s', mergeLoop w isFin safe s names = .ok s' ∧
      SameCore s' st0 ∧
      s'.active_adapters = s.active_adapters ∧
      s'.disable_adapters = s.disable_adapters ∧
      s'.merged_adapters = s.merged_adapters ++
        names.filter (fun nm => (st0.adapters.lookup nm).isSome) ∧
      s'.baseWeight =
        (names.filter (fun nm => (st0.adapters.lookup nm).isSome)).foldl
          (fun b nm => b.add (deltaOf w st0 nm)) s.baseWeight := by
  intro names
  induction names with
  | nil =>
    intro s hsc
    exact ⟨s, rfl, hsc, rfl, rfl, by simp, by simp⟩
  | cons a rest ih =>
    intro s hsc
    rcases hlook : st0.adapters.lookup a with _ | cfg
    · have hskip := mergeOne_skip w isFin safe s a (by rw [hsc.1]; exact hlook)
      obtain ⟨s', hloop, h1, h2, h3, h4, h5⟩ := ih s hsc
      refine ⟨s', ?_, h1, h2, h3, ?_, ?_⟩
      · simp only [mergeLoop, hskip]
        exact hloop
      · rw [h4, List.filter_cons_of_neg (by simp [hlook])]
      · rw [h5, List.filter_cons_of_neg (by simp [hlook])]
    · have hfam := hWF a cfg hlook
      obtain ⟨d, hd, hone⟩ := mergeOne_ok_of_mem w isFin safe s a cfg hfin
        (by rw [hsc.1]; exact hlook) hfam
      have hds : d = deltaOf w st0 a := by
        rw [deltaOf, ← get_delta_weight_congr_of_sameCore w s st0 a hsc, hd]
        rfl
      obtain ⟨s', hloop, h1, h2, h3, h4, h5⟩ :=
        ih { s with
             baseWeight := s.baseWeight.add d,
             merged_adapters := s.merged_adapters ++ [a] } hsc
      refine ⟨s', ?_, h1, h2, h3, ?_, ?_⟩
      · simp only [mergeLoop, hone]
        exact hloop
      · rw [h4, List.filter_cons_of_pos (by simp [hlook])]
        simp
      · rw [h5, List.filter_cons_of_pos (by simp [hlook])]
        simp only [List.foldl_cons]
        rw [hds]

theorem unmergeLoop_ok
    (w : Mat ℚ → Mat ℚ → Mat ℚ → Mat ℚ → String → Mat ℚ)
    (st0 : WaveFTState ℚ) (hWF : FamiliesOK st0) :
    ∀ (stack : List String) (s : WaveFTState ℚ), SameCore s st0 →
    s.merged_adapters = stack.reverse →
    ∃ s', unmergeLoop w s stack = .ok s' ∧
      SameCore s' st0 ∧
      s'.active_adapters = s.active_adapters ∧
      s'.disable_adapters = s.disable_adapters ∧
      s'.merged_adapters = [] ∧
      s'.baseWeight =
        (stack.filter (fun nm => (st0.adapters.lookup nm).isSome)).foldl
          (fun b nm => b.sub (deltaOf w st0 nm)) s.baseWeight := by
  intro stack
  induction stack with
  | nil =>
    intro s hsc hms
    exact ⟨s, rfl, hsc, rfl, rfl, by simpa using hms, by simp⟩
  | cons a rest ih =>
    intro s hsc hms
    have hsc1 : SameCore { s with merged_adapters := rest.reverse } st0 := hsc
    rcases hlook : st0.adapters.lookup a with _ | cfg
    · obtain ⟨s', hloop, h1, h2, h3, h4, h5⟩ :=
        ih { s with merged_adapters := rest.reverse } hsc1 rfl
      refine ⟨s', ?_, h1, h2, h3, h4, ?_⟩
      · simp only [unmergeLoop]
        rw [if_neg (by
          simp only [hsc.1, hlook, Option.isSome_none]
          exact fun hc => Bool.noConfusion hc)]
        exact hloop
      · rw [h5, List.filter_cons_of_neg (by simp [hlook])]
    · have hfam := hWF a cfg hlook
      have hdsome : (get_delta_weight w
          { s with merged_adapters := rest.reverse } a).isSome = true := by
        rw [get_delta_weight_congr_of_sameCore w _ st0 a hsc1]
        exact get_delta_isSome w st0 a cfg hlook hfam
      rcases Option.isSome_iff_exists.mp hdsome with ⟨d, hd⟩
      have hds : d = deltaOf w st0 a := by
        rw [deltaOf, ← get_delta_weight_congr_of_sameCore w _ st0 a hsc1, hd]
        rfl
      obtain ⟨s', hloop, h1, h2, h3, h4, h5⟩ :=
        ih { s with
             merged_adapters := rest.reverse,
             baseWeight := s.baseWeight.sub d } hsc1 rfl
      refine ⟨s', ?_, h1, h2, h3, h4, ?_⟩
      · simp only [unmergeLoop]
        rw [if_pos (by rw [hsc.1, hlook]; rfl), hd]
        exact hloop
      · rw [h5, List.filter_cons_of_pos (by simp [hlook])]
        simp only [List.foldl_cons]
        rw [hds]

theorem foldl_sub_reverse_foldl_add (g : String → Mat ℚ) :
    ∀ (L : List String) (b : Mat ℚ),
      (L.reverse).foldl (fun x nm => x.sub (g nm))
        (L.foldl (fun x nm => x.add (g nm)) b) = b := by
  intro L
  induction L with
  | nil => intro b; rfl
  | cons a t ih =>
    intro b
    simp only [List.foldl_cons, List.reverse_cons, List.foldl_append,
      List.foldl_nil]
    rw [ih (b.add (g a))]
    exact Mat.add_sub_cancel b (g a)

theorem lookup_mem {β : Type} (k : String) (v : β) :
    ∀ l : List (String × β), l.lookup k = some v → (k, v) ∈ l := by
  intro l
  induction l with
  | nil => intro h; cases h
  | cons p t ih =>
    intro h
    rcases p with ⟨a, b⟩
    rw [List.lookup_cons] at h
    rcases hka : (k == a) with _ | _
    · rw [hka] at h
      exact List.mem_cons_of_mem _ (ih h)
    · rw [hka] at h
      simp only [Option.some.injEq] at h
      have : k = a := by simpa using hka
      rw [this, h]
      exact List.mem_cons_self _ _

/-- `FamiliesOK` follows from the corresponding decidable scan of the
config map. -/
theorem familiesOK_of_all (st : WaveFTState ℚ)
    (h : (st.adapters.all fun p =>
      (WAVELET_REDUCTIONS.lookup p.2.wavelet_family).isSome) = true) :
    FamiliesOK st := by
  intro nm cfg hl
  have hmem := lookup_mem nm cfg st.adapters hl
  exact List.all_eq_true.mp h _ hmem

/-- Claim C1: from an unmerged well-formed layer, `merge` (any
`safe_merge` flag, any requested adapter list) followed by `unmerge`
restores the base weight tensor exactly, under exact (rational)
arithmetic; unmerge pops every merged adapter and subtracts the same
delta that merge added. -/
theorem claim_C1_merge_unmerge_roundtrip
    (w : Mat ℚ → Mat ℚ → Mat ℚ → Mat ℚ → String → Mat ℚ)
    (isFin : ℚ → Bool) (st : WaveFTState ℚ) (safe : Bool)
    (adapter_names : Option (List String))
    (hfin : ∀ v : ℚ, isFin v = true)
    (hWF : FamiliesOK st)
    (hne : st.adapters ≠ [])
    (hmerged : st.merged_adapters = []) :
    ∃ st1 st2, merge w isFin st safe adapter_names = .ok st1 ∧
      unmerge w st1 = .ok st2 ∧
      st2.baseWeight = st.baseWeight ∧ st2.merged_adapters = [] := by
  obtain ⟨st1, hloop, hsc1, hact1, hdis1, hm1, hb1⟩ :=
    mergeLoop_ok w isFin safe st hfin hWF
      (check_adapters_to_merge st adapter_names) st ⟨rfl, rfl, rfl, rfl⟩
  have hmerge : merge w isFin st safe adapter_names = .ok st1 := hloop
  rw [hmerged, List.nil_append] at hm1
  by_cases hLe : st1.merged_adapters.isEmpty
  · have hunm : unmerge w st1 = .ok st1 := by
      simp [unmerge, hLe]
    have hLnil : (check_adapters_to_merge st adapter_names).filter
        (fun nm => (st.adapters.lookup nm).isSome) = [] := by
      rw [← hm1]
      exact List.isEmpty_iff.mp hLe
    refine ⟨st1, st1, hmerge, hunm, ?_, ?_⟩
    · rw [hb1, hLnil]
      rfl
    · rw [hm1, hLnil]
  · obtain ⟨st2, hul, hsc2, hact2, hdis2, hm2, hb2⟩ :=
      unmergeLoop_ok w st hWF st1.merged_adapters.reverse st1 hsc1
        (List.reverse_reverse _).symm
    have hunm : unmerge w st1 = .ok st2 := by
      simp only [unmerge]
      rw [if_neg hLe]
      exact hul
    refine ⟨st1, st2, hmerge, hunm, ?_, hm2⟩
    rw [hb2, hb1, hm1]
    have hfilt : (((check_adapters_to_merge st adapter_names).filter
        (fun nm => (st.adapters.lookup nm).isSome)).reverse).filter
        (fun nm => (st.adapters.lookup nm).isSome) =
        ((check_adapters_to_merge st adapter_names).filter
          (fun nm => (st.adapters.lookup nm).isSome)).reverse := by
      rw [List.filter_eq_self]
      intro x hx
      exact (List.mem_filter.mp (List.mem_reverse.mp hx)).2
    rw [hfilt]
    exact foldl_sub_reverse_foldl_add (deltaOf w st) _ st.baseWeight

/-- Witness for C1: the concrete direct-mode layer, safe merge of all
active adapters, then unmerge. -/
theorem claim_C1_witness :
    (∀ v : ℚ, (fun _ : ℚ => true) v = true) ∧ FamiliesOK stEx ∧
    stEx.adapters ≠ [] ∧ stEx.merged_adapters = [] ∧
    (∃ st1 st2,
      merge wIdent (fun _ : ℚ => true) stEx true none = .ok st1 ∧
      unmerge wIdent st1 = .ok st2 ∧
      st2.baseWeight = stEx.baseWeight ∧ st2.merged_adapters = []) :=
  ⟨fun _ => rfl, familiesOK_of_all stEx (by decide),
    List.cons_ne_nil _ _, rfl,
    claim_C1_merge_unmerge_roundtrip wIdent (fun _ => true) stEx true none
      (fun _ => rfl) (familiesOK_of_all stEx (by decide))
      (List.cons_ne_nil _ _) rfl⟩

/-- Every outcome of one merge iteration: unchanged skip, an error
carrying the state exactly as it stood, or a commit of a config-map
key. -/
theorem mergeOne_cases
    (w : Mat ℚ → Mat ℚ → Mat ℚ → Mat ℚ → String → Mat ℚ)
    (isFin : ℚ → Bool) (safe : Bool) (s : WaveFTState ℚ) (nm : String) :
    mergeOne w isFin safe s nm = .ok s ∨
    (∃ msg, mergeOne w isFin safe s nm = .error (s, msg)) ∨
    (∃ d, (s.adapters.lookup nm).isSome = true ∧
      mergeOne w isFin safe s nm =
        .ok { s with
              baseWeight := s.baseWeight.add d,
              merged_adapters := s.merged_adapters ++ [nm] }) := by
  rcases hlook : s.adapters.lookup nm with _ | cfg
  · exact Or.inl (mergeOne_skip w isFin safe s nm hlook)
  · rcases hd : get_delta_weight w s nm with _ | d
    · refine Or.inr (Or.inl ⟨"KeyError", ?_⟩)
      simp [mergeOne, hlook, hd]
    · by_cases hsafe : safe = true
      · by_cases hfin2 : (s.baseWeight.add d).allFinite isFin = true
        · refine Or.inr (Or.inr ⟨d, by simp [hlook], ?_⟩)
          simp [mergeOne, hlook, hd, hsafe, hfin2]
        · refine Or.inr (Or.inl ⟨mergeNaNMsg nm, ?_⟩)
          simp [mergeOne, hlook, hd, hsafe, hfin2]
      · refine Or.inr (Or.inr ⟨d, by simp [hlook], ?_⟩)
        simp [mergeOne, hlook, hd, hsafe]

theorem mergeLoop_inv
    (w : Mat ℚ → Mat ℚ → Mat ℚ → Mat ℚ → String → Mat ℚ)
    (isFin : ℚ → Bool) (safe : Bool) :
    ∀ (names : List String) (s : WaveFTState ℚ),
    (∀ x ∈ s.merged_adapters, (s.adapters.lookup x).isSome = true) →
    (∀ s', mergeLoop w isFin safe s names = .ok s' →
      ∀ x ∈ s'.merged_adapters, (s'.adapters.lookup x).isSome = true) ∧
    (∀ p, mergeLoop w isFin safe s names = .error p →
      ∀ x ∈ p.1.merged_adapters, (p.1.adapters.lookup x).isSome = true) := by
  intro names
  induction names with
  | nil =>
    intro s hinv
    constructor
    · intro s' hs'
      cases hs'
      exact hinv
    · intro p hp
      cases hp
  | cons a rest ih =>
    intro s hinv
    rcases mergeOne_cases w isFin safe s a with h | ⟨msg, h⟩ | ⟨d, hk, h⟩
    · have := ih s hinv
      constructor
      · intro s' hs'
        rw [mergeLoop, h] at hs'
        exact this.1 s' hs'
      · intro p hp
        rw [mergeLoop, h] at hp
        exact this.2 p hp
    · constructor
      · intro s' hs'
        rw [mergeLoop, h] at hs'
        cases hs'
      · intro p hp
        rw [mergeLoop, h] at hp
        cases hp
        exact hinv
    · have hinv2 : ∀ x ∈ (s.merged_adapters ++ [a]),
          ((s.adapters.lookup x).isSome = true) := by
        intro x hx
        rcases List.mem_append.mp hx with hx | hx
        · exact hinv x hx
        · rw [List.mem_singleton.mp hx]
          exact hk
      have := ih { s with
        baseWeight := s.baseWeight.add d,
        merged_adapters := s.merged_adapters ++ [a] } hinv2
      constructor
      · intro s' hs'
        rw [mergeLoop, h] at hs'
        exact this.1 s' hs'
      · intro p hp
        rw [mergeLoop, h] at hp
        exact this.2 p hp

theorem unmergeLoop_inv
    (w : Mat ℚ → Mat ℚ → Mat ℚ → Mat ℚ → String → Mat ℚ) :
    ∀ (stack : List String) (s : WaveFTState ℚ),
    (∀ x ∈ s.merged_adapters, (s.adapters.lookup x).isSome = true) →
    (∀ x ∈ stack, (s.adapters.lookup x).isSome = true) →
    (∀ s', unmergeLoop w s stack = .ok s' →
      ∀ x ∈ s'.merged_adapters, (s'.adapters.lookup x).isSome = true) ∧
    (∀ p, unmergeLoop w s stack = .error p →
      ∀ x ∈ p.1.merged_adapters, (p.1.adapters.lookup x).isSome = true) := by
  intro stack
  induction stack with
  | nil =>
    intro s hinv _
    constructor
    · intro s' hs'
      cases hs'
      exact hinv
    · intro p hp
      cases hp
  | cons a rest ih =>
    intro s hinv hstack
    have hrest : ∀ x ∈ rest, (s.adapters.lookup x).isSome = true :=
      fun x hx => hstack x (List.mem_cons_of_mem a hx)
    have hinv1 : ∀ x ∈ rest.reverse, (s.adapters.lookup x).isSome = true :=
      fun x hx => hrest x (List.mem_reverse.mp hx)
    rcases hlook : s.adapters.lookup a with _ | cfg
    · have hih := ih { s with merged_adapters := rest.reverse } hinv1 hrest
      constructor
      · intro s' hs'
        rw [unmergeLoop] at hs'
        rw [if_neg (by
          rw [show ({ s with merged_adapters := rest.reverse } :
            WaveFTState ℚ).adapters = s.adapters from rfl, hlook]
          exact fun hc => Bool.noConfusion hc)] at hs'
        exact hih.1 s' hs'
      · intro p hp
        rw [unmergeLoop] at hp
        rw [if_neg (by
          rw [show ({ s with merged_adapters := rest.reverse } :
            WaveFTState ℚ).adapters = s.adapters from rfl, hlook]
          exact fun hc => Bool.noConfusion hc)] at hp
        exact hih.2 p hp
    · rcases hd : get_delta_weight w
          { s with merged_adapters := rest.reverse } a with _ | d
      · constructor
        · intro s' hs'
          rw [unmergeLoop] at hs'
          rw [if_pos (by
            rw [show ({ s with merged_adapters := rest.reverse } :
              WaveFTState ℚ).adapters = s.adapters from rfl, hlook]
            rfl), hd] at hs'
          cases hs'
        · intro p hp
          rw [unmergeLoop] at hp
          rw [if_pos (by
            rw [show ({ s with merged_adapters := rest.reverse } :
              WaveFTState ℚ).adapters = s.adapters from rfl, hlook]
            rfl), hd] at hp
          cases hp
          exact hinv1
      · have hih := ih { s with
          merged_adapters := rest.reverse,
          baseWeight := ({ s with merged_adapters := rest.reverse } :
            WaveFTState ℚ).baseWeight.sub d } hinv1 hrest
        constructor
        · intro s' hs'
          rw [unmergeLoop] at hs'
          rw [if_pos (by
            rw [show ({ s with merged_adapters := rest.reverse } :
              WaveFTState ℚ).adapters = s.adapters from rfl, hlook]
            rfl), hd] at hs'
          exact hih.1 s' hs'
        · intro p hp
          rw [unmergeLoop] at hp
          rw [if_pos (by
            rw [show ({ s with merged_adapters := rest.reverse } :
              WaveFTState ℚ).adapters = s.adapters from rfl, hlook]
            rfl), hd] at hp
          exact hih.2 p hp

/-- Claim C10: merge commits a resolved adapter name only if it is a key
of the config map — an absent name is silently skipped with no state
change — and, since unmerge only pops, both operations preserve the
invariant that every name held in `merged_adapters` is a config-map
key. -/
theorem claim_C10_merged_subset_configured
    (w : Mat ℚ → Mat ℚ → Mat ℚ → Mat ℚ → String → Mat ℚ)
    (isFin : ℚ → Bool) (st : WaveFTState ℚ)
    (hinv : ∀ x ∈ st.merged_adapters, (st.adapters.lookup x).isSome = true) :
    (∀ (s : WaveFTState ℚ) (nm : String) (safe : Bool),
      s.adapters.lookup nm = none → mergeOne w isFin safe s nm = .ok s) ∧
    (∀ (safe : Bool) (adapter_names : Option (List String)),
      (∀ st', merge w isFin st safe adapter_names = .ok st' →
        ∀ x ∈ st'.merged_adapters, (st'.adapters.lookup x).isSome = true) ∧
      (∀ p, merge w isFin st safe adapter_names = .error p →
        ∀ x ∈ p.1.merged_adapters, (p.1.adapters.lookup x).isSome = true)) ∧
    ((∀ st', unmerge w st = .ok st' →
        ∀ x ∈ st'.merged_adapters, (st'.adapters.lookup x).isSome = true) ∧
      (∀ p, unmerge w st = .error p →
        ∀ x ∈ p.1.merged_adapters, (p.1.adapters.lookup x).isSome = true)) := by
  refine ⟨fun s nm safe h => mergeOne_skip w isFin safe s nm h,
    fun safe adapter_names => ?_, ?_⟩
  · exact mergeLoop_inv w isFin safe
      (check_adapters_to_merge st adapter_names) st hinv
  · by_cases he : st.merged_adapters.isEmpty
    · have hu : unmerge w st = .ok st := by simp [unmerge, he]
      constructor
      · intro st' h
        rw [hu] at h
        cases h
        exact hinv
      · intro p hp
        rw [hu] at hp
        cases hp
    · have hu : unmerge w st =
          unmergeLoop w st st.merged_adapters.reverse := by
        simp only [unmerge]
        rw [if_neg he]
      rw [hu]
      exact unmergeLoop_inv w st.merged_adapters.reverse st hinv
        (fun x hx => hinv x (List.mem_reverse.mp hx))

/-- Witness for C10 at the concrete layer: an unknown name is skipped and
the invariant is preserved. -/
theorem claim_C10_witness :
    (∀ x ∈ stEx.merged_adapters,
      (stEx.adapters.lookup x).isSome = true) ∧
    (∀ (s : WaveFTState ℚ) (nm : String) (safe : Bool),
      s.adapters.lookup nm = none →
      mergeOne wIdent (fun _ : ℚ => true) safe s nm = .ok s) ∧
    (∀ (safe : Bool) (adapter_names : Option (List String)),
      (∀ st', merge wIdent (fun _ : ℚ => true) stEx safe adapter_names =
          .ok st' →
        ∀ x ∈ st'.merged_adapters, (st'.adapters.lookup x).isSome = true) ∧
      (∀ p, merge wIdent (fun _ : ℚ => true) stEx safe adapter_names =
          .error p →
        ∀ x ∈ p.1.merged_adapters, (p.1.adapters.lookup x).isSome = true)) ∧
    ((∀ st', unmerge wIdent stEx = .ok st' →
        ∀ x ∈ st'.merged_adapters, (st'.adapters.lookup x).isSome = true) ∧
      (∀ p, unmerge wIdent stEx = .error p →
        ∀ x ∈ p.1.merged_adapters,
          (p.1.adapters.lookup x).isSome = true)) :=
  ⟨fun x hx => absurd hx (List.not_mem_nil x),
    (claim_C10_merged_subset_configured wIdent (fun _ => true) stEx
      (fun x hx => absurd hx (List.not_mem_nil x))).1,
    (claim_C10_merged_subset_configured wIdent (fun _ => true) stEx
      (fun x hx => absurd hx (List.not_mem_nil x))).2.1,
    (claim_C10_merged_subset_configured wIdent (fun _ => true) stEx
      (fun x hx => absurd hx (List.not_mem_nil x))).2.2⟩

/-- Claim C6: with `safe_merge = true`, if the candidate base-plus-delta
tensor for an adapter has a non-finite entry, the merge step raises the
error naming that adapter, leaving the state — base weight and merged
stack — exactly as it stood; a single-adapter `merge` call therefore
fails with the input state carried unchanged. -/
theorem claim_C6_safe_merge_nonfinite_atomic
    (w : Mat FVal → Mat FVal → Mat FVal → Mat FVal → String → Mat FVal)
    (st : WaveFTState FVal) (a : String) (d : Mat FVal)
    (hk : (st.adapters.lookup a).isSome = true)
    (hd : get_delta_weight w st a = some d)
    (hnf : (st.baseWeight.add d).allFinite FVal.isFinite = false)
    (hnm : a ∉ st.merged_adapters) :
    mergeOne w FVal.isFinite true st a = .error (st, mergeNaNMsg a) ∧
    merge w FVal.isFinite st true (some [a]) =
      .error (st, mergeNaNMsg a) := by
  have h1 : mergeOne w FVal.isFinite true st a =
      .error (st, mergeNaNMsg a) := by
    simp [mergeOne, hk, hd, hnf]
  refine ⟨h1, ?_⟩
  have hres : check_adapters_to_merge st (some [a]) = [a] := by
    simp [check_adapters_to_merge, hnm]
  rw [merge, hres, mergeLoop, h1]

/-- Witness for C6: a 1×1 layer whose adapter spectrum holds a NaN. -/
theorem claim_C6_witness :
    (stNaN.adapters.lookup "a").isSome = true ∧
    get_delta_weight wNaN stNaN "a" =
      some (((Mat.zeros 1 1 cfgNaN.spectrumDtype).scatter
        (cfgNaN.indices.zip cfgNaN.spectrum)).smul cfgNaN.scaling) ∧
    (stNaN.baseWeight.add (((Mat.zeros 1 1
        cfgNaN.spectrumDtype).scatter
        (cfgNaN.indices.zip cfgNaN.spectrum)).smul
        cfgNaN.scaling)).allFinite FVal.isFinite = false ∧
    ("a" ∉ stNaN.merged_adapters) ∧
    mergeOne wNaN FVal.isFinite true stNaN "a" =
      .error (stNaN, mergeNaNMsg "a") ∧
    merge wNaN FVal.isFinite stNaN true (some ["a"]) =
      .error (stNaN, mergeNaNMsg "a") := by
  have h := claim_C6_safe_merge_nonfinite_atomic wNaN stNaN "a"
    (((Mat.zeros 1 1 cfgNaN.spectrumDtype).scatter
      (cfgNaN.indices.zip cfgNaN.spectrum)).smul cfgNaN.scaling)
    rfl rfl rfl (List.not_mem_nil "a")
  exact ⟨rfl, rfl, rfl, List.not_mem_nil "a", h.1, h.2⟩

theorem flinear_congr (x x0 wm : Mat ℚ) (he : x.entry = x0.entry)
    (hc : x.cols = x0.cols) :
    ∀ i j, (x.flinear wm).entry i j = (x0.flinear wm).entry i j := by
  intro i j
  simp [Mat.flinear, he, hc]

/-- The adapter accumulation loop of `forward` adds, entry by entry, one
`F.linear` contribution per active adapter present in the config map; the
dtype rebinding of the input never changes its values. -/
theorem forwardLoop_spec
    (w : Mat ℚ → Mat ℚ → Mat ℚ → Mat ℚ → String → Mat ℚ)
    (st : WaveFTState ℚ) (hWF : FamiliesOK st) :
    ∀ (acts : List String) (x0 x result : Mat ℚ),
    x.entry = x0.entry → x.cols = x0.cols →
    ∃ xfin res, forwardLoop w st acts x result = .ok (xfin, res) ∧
      res.rows = result.rows ∧ res.cols = result.cols ∧
      res.dtype = result.dtype ∧
      (∀ i j, res.entry i j = result.entry i j +
        (((acts.filter (fun nm => (st.adapters.lookup nm).isSome)).map
          (fun nm => (x0.flinear (deltaOf w st nm)).entry i j)).sum)) := by
  intro acts
  induction acts with
  | nil =>
    intro x0 x result he hc
    exact ⟨x, result, rfl, rfl, rfl, rfl, by simp⟩
  | cons a rest ih =>
    intro x0 x result he hc
    rcases hlook : st.adapters.lookup a with _ | cfg
    · obtain ⟨xfin, res, hfl, h1, h2, h3, h4⟩ := ih x0 x result he hc
      refine ⟨xfin, res, ?_, h1, h2, h3, ?_⟩
      · rw [forwardLoop]
        rw [if_neg (by rw [hlook]; exact fun hcon => Bool.noConfusion hcon)]
        exact hfl
      · intro i j
        rw [h4 i j, List.filter_cons_of_neg (by simp [hlook])]
    · have hfam := hWF a cfg hlook
      rcases Option.isSome_iff_exists.mp
        (get_delta_isSome w st a cfg hlook hfam) with ⟨d, hd⟩
      have hds : deltaOf w st a = d := by
        rw [deltaOf, hd]
        rfl
      obtain ⟨xfin, res, hfl, h1, h2, h3, h4⟩ := ih x0 (x.toDtype d.dtype)
        (result.add ((x.toDtype d.dtype).flinear d)) he hc
      refine ⟨xfin, res, ?_, ?_, ?_, ?_, ?_⟩
      · rw [forwardLoop]
        rw [if_pos (by rw [hlook]; rfl), hd]
        exact hfl
      · rw [h1]
        rfl
      · rw [h2]
        rfl
      · rw [h3]
        rfl
      · intro i j
        rw [h4 i j, List.filter_cons_of_pos (by simp [hlook]),
          List.map_cons, List.sum_cons]
        have hfc : ((x.toDtype d.dtype).flinear d).entry i j =
            (x0.flinear d).entry i j :=
          flinear_congr (x.toDtype d.dtype) x0 d he hc i j
        have haddent : (result.add ((x.toDtype d.dtype).flinear d)).entry i j =
            result.entry i j + ((x.toDtype d.dtype).flinear d).entry i j :=
          rfl
        rw [haddent, hfc, hds]
        ring

/-- Claim C2: `forward` is a three-state dispatch — disabled (unmerging
first when merged) returns the base transform alone; merged returns the
base transform alone; otherwise it returns the base transform plus one
additive `F.linear(x, get_delta_weight(adapter))` contribution per active
adapter present in the config map — and in every state the result is cast
back to the input's original dtype. -/
theorem claim_C2_forward_three_state_dispatch
    (w : Mat ℚ → Mat ℚ → Mat ℚ → Mat ℚ → String → Mat ℚ)
    (baseF : Mat ℚ → Mat ℚ) (st : WaveFTState ℚ) (x : Mat ℚ)
    (hWF : FamiliesOK st) :
    (st.disable_adapters = true → st.merged_adapters = [] →
      forward w baseF st x = .ok (st, (baseF x).toDtype x.dtype)) ∧
    (st.disable_adapters = true → st.merged_adapters ≠ [] →
      ∃ st1, unmerge w st = .ok st1 ∧
        forward w baseF st x = .ok (st1, (baseF x).toDtype x.dtype)) ∧
    (st.disable_adapters = false → st.merged_adapters ≠ [] →
      forward w baseF st x = .ok (st, (baseF x).toDtype x.dtype)) ∧
    (st.disable_adapters = false → st.merged_adapters = [] →
      ∃ res, forward w baseF st x = .ok (st, res) ∧
        res.dtype = x.dtype ∧ res.rows = (baseF x).rows ∧
        res.cols = (baseF x).cols ∧
        (∀ i j, res.entry i j = (baseF x).entry i j +
          (((st.active_adapters.filter
            (fun nm => (st.adapters.lookup nm).isSome)).map
            (fun nm => (x.flinear (deltaOf w st nm)).entry i j)).sum))) := by
  refine ⟨?_, ?_, ?_, ?_⟩
  · intro hdis hm
    simp [forward, hdis, WaveFTState.merged, hm]
  · intro hdis hm
    have hne : st.merged_adapters.isEmpty = false := by
      rcases hh : st.merged_adapters with _ | _
      · exact absurd hh hm
      · rfl
    obtain ⟨st1, hul, _, _, _, _, _⟩ := unmergeLoop_ok w st hWF
      st.merged_adapters.reverse st ⟨rfl, rfl, rfl, rfl⟩
      (List.reverse_reverse _).symm
    have hu : unmerge w st = .ok st1 := by
      simp only [unmerge, hne, Bool.false_eq_true, if_false]
      exact hul
    refine ⟨st1, hu, ?_⟩
    simp [forward, hdis, WaveFTState.merged, hne, hu]
  · intro hdis hm
    have hne : st.merged_adapters.isEmpty = false := by
      rcases hh : st.merged_adapters with _ | _
      · exact absurd hh hm
      · rfl
    simp [forward, hdis, WaveFTState.merged, hne]
  · intro hdis hm
    obtain ⟨xfin, res, hfl, h1, h2, h3, h4⟩ := forwardLoop_spec w st hWF
      st.active_adapters x x (baseF x) rfl rfl
    refine ⟨res.toDtype x.dtype, ?_, rfl, h1, h2, h4⟩
    simp only [forward, hdis, WaveFTState.merged, hm, List.isEmpty_nil,
      Bool.not_true, Bool.false_eq_true, if_false, hfl]

/-- Witness for C2: the concrete live layer (neither disabled nor
merged), identity base transform, a concrete 1×3 input. -/
theorem claim_C2_witness :
    FamiliesOK stEx ∧
    (stEx.disable_adapters = false → stEx.merged_adapters = [] →
      ∃ res, forward wIdent (fun m => m) stEx ⟨1, 3, (fun _ j => (j : ℚ)), 0⟩ =
          .ok (stEx, res) ∧
        res.dtype = (⟨1, 3, (fun _ j => (j : ℚ)), 0⟩ : Mat ℚ).dtype ∧
        res.rows = ((fun (m : Mat ℚ) => m) ⟨1, 3, (fun _ j => (j : ℚ)), 0⟩).rows ∧
        res.cols = ((fun (m : Mat ℚ) => m) ⟨1, 3, (fun _ j => (j : ℚ)), 0⟩).cols ∧
        (∀ i j, res.entry i j =
          ((fun (m : Mat ℚ) => m) ⟨1, 3, (fun _ j => (j : ℚ)), 0⟩).entry i j +
          (((stEx.active_adapters.filter
            (fun nm => (stEx.adapters.lookup nm).isSome)).map
            (fun nm => ((⟨1, 3, (fun _ j => (j : ℚ)), 0⟩ : Mat ℚ).flinear
              (deltaOf wIdent stEx nm)).entry i j)).sum))) :=
  ⟨familiesOK_of_all stEx (by decide),
    (claim_C2_forward_three_state_dispatch wIdent (fun m => m) stEx
      ⟨1, 3, (fun _ j => (j : ℚ)), 0⟩
      (familiesOK_of_all stEx (by decide))).2.2.2⟩

end WaveFT
